import Mathlib

/-!
# Verification of the SELF weekly-planner / sync core

A shallow embedding of the repository's ConflictResolver, WeeklyPlanner
scheduler and GuardianAgent, with proofs of the specification's testable
properties.

Modelling conventions:
* JavaScript numbers are modelled as `ℚ`.  Every numeric value exercised by
  the claims (timestamps, minutes, weights such as 1.35 or 0.08) is exactly
  representable both as an IEEE double and as a rational, and every
  comparison the code performs on them gives the same result in both
  models.  `NaN` / `Infinity` never arise on the modelled paths (the
  resolver's `isNaN` guard on remote ids can therefore never fire and is
  noted where it occurs).
* JavaScript objects with a statically known field set become structures;
  the free-form fields of a synced entity are kept as an association list
  in declaration order (`data`), mirroring `Object.keys` enumeration order.
* `!==` on primitives is structural inequality.  On objects it is reference
  inequality; the only place the resolver applies it to an object value
  (`vectorClock` inside `mergeFields`) adopting a structurally equal value
  is a structural no-op, so structural inequality yields the same entity
  up to structure, which is what all claims are about.
* Rationale records carry a message string and a details payload that are
  pure presentation (never read back by any code path); the embedding
  keeps the rule code, which is the only part with behavioural content.
-/

namespace SELF

/-- `Math.round` (round half towards +∞), as JavaScript defines it. -/
def jsRound (q : ℚ) : ℤ := ⌊q + 1/2⌋

/-- `x || d` for a number `x`: `0` is falsy. -/
def jsOrQ (q d : ℚ) : ℚ := if q = 0 then d else q

/-! ## ConflictResolver (src/lib/sync/ConflictResolver.ts, enhanced version) -/

/-- A primitive JavaScript value stored in a free-form entity field. -/
inductive JsVal where
  | num (q : ℚ)
  | str (s : String)
  | bool (b : Bool)
  deriving DecidableEq, Repr

/-- A vector clock: `Record<string, number>` in declaration order. -/
abbrev VClock := List (String × ℚ)

/-- `SyncableEntity`: the fields named by the interface, plus the remaining
own fields of the object (`data`) in declaration order. -/
structure Entity where
  id : Option ℚ := none
  uuid : Option String := none
  updatedAt : ℚ
  version : Option ℚ := none
  isDeleted : Option Bool := none
  vectorClock : Option VClock := none
  data : List (String × JsVal) := []
  deriving DecidableEq, Repr

/-- Truthiness of `entity.isDeleted` (undefined and `false` are falsy). -/
def delFlag (e : Entity) : Bool := e.isDeleted = some true

/-- Result of `compareVectorClocks`. -/
inductive VCCmp where
  | isLocal
  | isRemote
  | concurrent
  deriving DecidableEq, Repr

/-- `clock[key] || 0`. -/
def vcGet (c : VClock) (k : String) : ℚ := (c.lookup k).getD 0

/-- `ConflictResolver.compareVectorClocks`: strict dominance over the union
of the key sets. -/
def compareVectorClocks (l r : VClock) : VCCmp :=
  let allKeys := (l.map Prod.fst ++ r.map Prod.fst).dedup
  let localNewer := allKeys.any (fun k => vcGet l k > vcGet r k)
  let remoteNewer := allKeys.any (fun k => vcGet r k > vcGet l k)
  if localNewer ∧ ¬ remoteNewer then .isLocal
  else if remoteNewer ∧ ¬ localNewer then .isRemote
  else .concurrent

/-- The per-field rule of `mergeFields` for one key of the remote object:
absent on remote ⇒ key not iterated, keep local; local undefined ⇒ adopt;
values differ and `remote.updatedAt >= local.updatedAt` (`adopt`) ⇒ adopt;
otherwise keep local. -/
def adoptField {α : Type} [DecidableEq α] (adopt : Bool) (lv rv : Option α) :
    Option α :=
  match rv with
  | none => lv
  | some v =>
    match lv with
    | none => some v
    | some w => if w ≠ v ∧ adopt then some v else some w

/-- Assignment `obj[k] = v` on an association list: update the binding in
place, or append (JS property order). -/
def setJs (k : String) (v : JsVal) : List (String × JsVal) → List (String × JsVal)
  | [] => [(k, v)]
  | (k', v') :: rest =>
    if k' = k then (k, v) :: rest else (k', v') :: setJs k v rest

/-- The `mergeFields` loop over the free-form fields: iterate the keys of
`remote`, reading the condition from the original `local` and writing into
the accumulator (which starts as a copy of `local`). -/
def mergeData (adopt : Bool) (ldata rdata : List (String × JsVal)) :
    List (String × JsVal) :=
  rdata.foldl
    (fun acc kv =>
      match ldata.lookup kv.1 with
      | none => setJs kv.1 kv.2 acc
      | some w => if w ≠ kv.2 ∧ adopt then setJs kv.1 kv.2 acc else acc)
    ldata

/-- `ConflictResolver.mergeFields`.  `id`/`uuid` are never merged; the loop
also visits `updatedAt` and `version` but both are unconditionally
overwritten afterwards (max, resp. max+1), so only the final assignments
appear; `isDeleted` and `vectorClock` follow the generic per-field rule. -/
def mergeFields (l r : Entity) : Entity :=
  let adopt := decide (r.updatedAt ≥ l.updatedAt)
  { id := l.id
    uuid := l.uuid
    updatedAt := max l.updatedAt r.updatedAt
    version := some (max (l.version.getD 0) (r.version.getD 0) + 1)
    isDeleted := adoptField adopt l.isDeleted r.isDeleted
    vectorClock := adoptField adopt l.vectorClock r.vectorClock
    data := mergeData adopt l.data r.data }

/-- The timestamp stage of `resolve`: LWW, then the sub-1000 ms field
merge, then keep local. -/
def resolveByTimestamp (l r : Entity) : Entity :=
  if r.updatedAt > l.updatedAt then r
  else if |r.updatedAt - l.updatedAt| < 1000 then mergeFields l r
  else l

/-- The version stage of `resolve`: only decides when both versions are
present and differ. -/
def resolveByVersion (l r : Entity) : Entity :=
  match l.version, r.version with
  | some lv, some rv =>
    if rv > lv then r
    else if lv > rv then l
    else resolveByTimestamp l r
  | _, _ => resolveByTimestamp l r

/-- The vector-clock stage of `resolve`: only consulted when both clocks
are present; concurrent clocks fall through. -/
def resolveByClock (l r : Entity) : Entity :=
  match l.vectorClock, r.vectorClock with
  | some lc, some rc =>
    match compareVectorClocks lc rc with
    | .isRemote => r
    | .isLocal => l
    | .concurrent => resolveByVersion l r
  | _, _ => resolveByVersion l r

/-- `ConflictResolver.resolve` (both arguments always non-null here, so the
initial `!local || !remote` guard never fires). -/
def resolve (l r : Entity) : Entity :=
  if delFlag l ∧ ¬ delFlag r then
    if r.updatedAt > l.updatedAt then r else l
  else if delFlag r ∧ ¬ delFlag l then
    if r.updatedAt > l.updatedAt then
      { l with isDeleted := some true, updatedAt := r.updatedAt }
    else l
  else resolveByClock l r

/-- A map key: `item.uuid || item.id` (string or number). -/
inductive MKey where
  | s (v : String)
  | n (v : ℚ)
  deriving DecidableEq, Repr

/-- `item.uuid || item.id`, then the `!== undefined && !== null` filter:
a non-empty uuid wins, an empty/absent uuid falls back to the id. -/
def jsKey (e : Entity) : Option MKey :=
  match e.uuid with
  | some u => if u ≠ "" then some (.s u) else e.id.map .n
  | none => e.id.map .n

/-- One entity map entry list (JS `Map`: insertion-ordered, `set` on an
existing key updates in place). -/
abbrev EMap := List (MKey × Entity)

/-- `map.set k v`: replace the existing binding in place or append. -/
def setE (k : MKey) (v : Entity) : EMap → EMap
  | [] => [(k, v)]
  | (k', v') :: rest =>
    if k' = k then (k, v) :: rest else (k', v') :: setE k v rest

/-- Indexing step for the local list: keyless items are skipped. -/
def insStep (m : EMap) (e : Entity) : EMap :=
  match jsKey e with
  | none => m
  | some k => setE k e m

/-- Merge step for a remote item: the `typeof id !== 'number' || isNaN(id)`
validation can never reject in this model (ids are rationals), so its
branch is omitted; a keyed remote item is resolved against the local entry
or inserted. -/
def mergeStep (m : EMap) (e : Entity) : EMap :=
  match jsKey e with
  | none => m
  | some k =>
    match m.lookup k with
    | some le => setE k (resolve le e) m
    | none => setE k e m

/-- `ConflictResolver.mergeLists`: index locals, merge remotes, return the
map's values in insertion order (soft-deleted entities included). -/
def mergeLists (localList remoteList : List Entity) : List Entity :=
  ((remoteList.foldl mergeStep (localList.foldl insStep [])).map Prod.snd)

/-- The entity's free-form fields have pairwise distinct keys (an invariant
of every JavaScript object). -/
def dataNodup (e : Entity) : Prop := (e.data.map Prod.fst).Nodup

/-- The vector-clock stage cannot decide this pair (a clock is missing or
the clocks are concurrent). -/
def vcUndecided (l r : Entity) : Bool :=
  match l.vectorClock, r.vectorClock with
  | some lc, some rc => compareVectorClocks lc rc = .concurrent
  | _, _ => true

/-- The version stage cannot decide this pair (a version is missing or the
versions are equal). -/
def versionUndecided (l r : Entity) : Bool :=
  match l.version, r.version with
  | some lv, some rv => lv = rv
  | _, _ => true

/-- Equality of entities on every field except `version`. -/
def equpv (a b : Entity) : Prop :=
  a.id = b.id ∧ a.uuid = b.uuid ∧ a.updatedAt = b.updatedAt ∧
  a.isDeleted = b.isDeleted ∧ a.vectorClock = b.vectorClock ∧ a.data = b.data

instance : DecidablePred (fun p : Entity × Entity => equpv p.1 p.2) := by
  intro p; unfold equpv; infer_instance

instance (a b : Entity) : Decidable (equpv a b) := by
  unfold equpv; infer_instance

instance (e : Entity) : Decidable (dataNodup e) := by
  unfold dataNodup; infer_instance

/-- Whether the `mergeFields` loop assigns the remote value `v` at key `k`. -/
def wouldAdopt (ld : List (String × JsVal)) (a : Bool) (k : String) (v : JsVal) :
    Bool :=
  match ld.lookup k with
  | none => true
  | some w => w ≠ v ∧ a

/-- One `mergeFields` data step, named for the lemmas below (definitionally
the lambda inside `mergeData`). -/
def dStep (ld : List (String × JsVal)) (a : Bool)
    (acc : List (String × JsVal)) (kv : String × JsVal) : List (String × JsVal) :=
  match ld.lookup kv.1 with
  | none => setJs kv.1 kv.2 acc
  | some w => if w ≠ kv.2 ∧ a then setJs kv.1 kv.2 acc else acc

/-- The map invariant: every stored entity sits under its own key, and the
keys are pairwise distinct. -/
def goodMap (m : EMap) : Prop :=
  (∀ p ∈ m, jsKey p.2 = some p.1) ∧ (m.map Prod.fst).Nodup

/-- Pointwise relation between the second-pass map and the first-pass map:
keys agree positionally, entities agree up to version, and entries whose key
is still to be processed (in `S`) are exactly equal. -/
def RelS (S : List MKey) (m mA : EMap) : Prop :=
  List.Forall₂ (fun p q : MKey × Entity =>
    p.1 = q.1 ∧ equpv p.2 q.2 ∧ (p.1 ∈ S → p = q)) m mA

/-! ### Concrete resolver inputs used by counterexamples and witnesses -/

/-- A goal-like entity with a version counter. -/
def c1x : Entity :=
  { updatedAt := 1000, version := some 2, data := [("title", .str "A")] }

/-- A keyed remote entity for the list-merge counterexample. -/
def c2x : Entity := { uuid := some "a", updatedAt := 0, version := some 1 }

/-- Local side of a near-simultaneous pair (older by 500 ms). -/
def c3l : Entity := { updatedAt := 0, data := [("title", .str "A")] }

/-- Remote side of a near-simultaneous pair (newer by 500 ms). -/
def c3r : Entity := { updatedAt := 500, data := [("title", .str "B")] }

/-- Local side of a near-simultaneous pair where local is newer. -/
def c3wl : Entity := { updatedAt := 600, data := [("title", .str "A")] }

/-- Remote side for the near-simultaneous witness. -/
def c3wr : Entity := { updatedAt := 0, data := [("title", .str "B")] }

/-- A live local copy of an entity, last written at 50. -/
def c4l : Entity := { updatedAt := 50, data := [("title", .str "X")] }

/-- A soft-deleted remote copy, deleted at 100. -/
def c4r : Entity :=
  { updatedAt := 100, isDeleted := some true, data := [("title", .str "X")] }

/-! ## WeeklyPlanner (src/components/WeeklyPlanner.tsx)

`buildWeeklyPlan` is a pure function of its inputs except for one read of
`Date.now()` in the exam heuristic; that clock value is passed here as the
explicit argument `now` (epoch milliseconds).  `Date` values are modelled
by their epoch-millisecond value. -/

/-- Goal priority. -/
inductive Priority where
  | low
  | medium
  | high
  deriving DecidableEq, Repr

/-- Goal lifecycle status. -/
inductive GoalStatus where
  | active
  | postponed
  | completed
  deriving DecidableEq, Repr

/-- `Goal` (src/db/db.ts), restricted to the fields the scheduler and the
guardian read. -/
structure Goal where
  id : Option ℚ := none
  title : String
  targetHours : ℚ
  priority : Priority := .low
  deadline : Option ℚ := none
  status : Option GoalStatus := none
  deriving DecidableEq, Repr

/-- `Constraint` (src/db/db.ts), restricted to the fields the scheduler
reads; `day` is optional because the code reaches it through a cast. -/
structure Constraint where
  title : String
  duration : ℚ
  day : Option String := none
  deriving DecidableEq, Repr

/-- `WeeklyPlannerPolicy` (src/tuner definitions). -/
structure WeeklyPlannerPolicy where
  slotMinutes : ℚ := 30
  baseStudyBlockMinutes : ℚ
  eveningStudyBlockMinutes : ℚ
  maxStudyMinutesPerDay : ℚ
  morningStartHour : ℚ
  morningEndHour : ℚ
  eveningStartHour : ℚ
  eveningEndHour : ℚ
  morningWeight : ℚ
  middayWeight : ℚ
  eveningWeight : ℚ
  examWindowDays : ℚ
  examMorningBoost : ℚ
  examEveningPenalty : ℚ
  deriving DecidableEq, Repr

/-- `DEFAULT_WEEKLY_PLANNER_POLICY`. -/
def DEFAULT_WEEKLY_PLANNER_POLICY : WeeklyPlannerPolicy :=
  { slotMinutes := 30
    baseStudyBlockMinutes := 90
    eveningStudyBlockMinutes := 60
    maxStudyMinutesPerDay := 6 * 60
    morningStartHour := 9
    morningEndHour := 12
    eveningStartHour := 18
    eveningEndHour := 22
    morningWeight := 1.35
    middayWeight := 1.0
    eveningWeight := 0.85
    examWindowDays := 7
    examMorningBoost := 0.35
    examEveningPenalty := 0.2 }

/-- `clamp(n, min, max) = Math.max(min, Math.min(max, n))`. -/
def clamp (n mn mx : ℚ) : ℚ := max mn (min mx n)

/-- Time-of-day bucket. -/
inductive Bucket where
  | morning
  | midday
  | evening
  deriving DecidableEq, Repr

/-- `bucketForHour`. -/
def bucketForHour (hour : ℚ) (p : WeeklyPlannerPolicy) : Bucket :=
  if hour ≥ p.morningStartHour ∧ hour < p.morningEndHour then .morning
  else if hour ≥ p.eveningStartHour ∧ hour < p.eveningEndHour then .evening
  else .midday

/-- `SchedulerRule` codes (src/scheduler/rules.ts); the generated message
strings and detail payloads are presentation-only and omitted. -/
inductive SchedulerRule where
  | CONSTRAINT_BLOCKED_SLOT
  | CONSTRAINT_SPECIFIC_DAY
  | CONSTRAINT_GENERAL_DISTRIBUTION
  | DAILY_STUDY_LIMIT_REACHED
  | HIGH_PRIORITY_GOAL_ALLOCATED_EARLIER
  | GOAL_ROUND_ROBIN_DISTRIBUTION
  | GOAL_POSTPONED_SKIPPED
  | GOAL_BLOCK_PLACED_MORNING
  | GOAL_BLOCK_PLACED_MIDDAY
  | GOAL_BLOCK_PLACED_EVENING
  | GOAL_BLOCK_BEST_SCORE
  | EXAM_WINDOW_ACTIVE
  | EXAM_MORNING_BOOST_APPLIED
  | SLOT_FREE_AVAILABLE
  | SLOT_ALREADY_OCCUPIED
  deriving DecidableEq, Repr

/-- Slot type. -/
inductive SlotType where
  | free
  | busy
  | study
  deriving DecidableEq, Repr

/-- `Slot` (src/types/plan); the rationale is kept as its rule code. -/
structure Slot where
  startMinutes : ℚ
  type : SlotType
  label : Option String := none
  priority : Option Priority := none
  rationale : Option SchedulerRule := none
  deriving DecidableEq, Repr

/-- `DayPlan`. -/
structure DayPlan where
  dayName : String
  slots : List Slot
  deriving DecidableEq, Repr

/-- The weekday names. -/
def WEEK_DAYS : List String :=
  ["Pazartesi", "Salı", "Çarşamba", "Perşembe", "Cuma", "Cumartesi", "Pazar"]

/-- 09:00 window start. -/
def START_HOUR : ℕ := 9

/-- 22:00 window end (exclusive). -/
def END_HOUR : ℕ := 22

/-- 30-minute slots (module constant; distinct from `policy.slotMinutes`,
which `buildWeeklyPlan` never reads). -/
def SLOT_MINUTES : ℕ := 30

/-- `slotsPerDay = (END_HOUR - START_HOUR) * 60 / SLOT_MINUTES = 26`. -/
def slotsPerDay : ℕ := ((END_HOUR - START_HOUR) * 60) / SLOT_MINUTES

/-- Step 1: the all-free grid with its default rationales. -/
def initDays : List DayPlan :=
  WEEK_DAYS.map fun dayName =>
    { dayName := dayName
      slots := (List.range slotsPerDay).map fun i =>
        { startMinutes := ((START_HOUR * 60 + i * SLOT_MINUTES : ℕ) : ℚ)
          type := .free
          rationale := some .SLOT_FREE_AVAILABLE } }

/-- In-place update of one list element (the JS array mutation). -/
def modIdx {α : Type} (f : α → α) : ℕ → List α → List α
  | _, [] => []
  | 0, a :: as => f a :: as
  | n + 1, a :: as => a :: modIdx f n as

/-- Write to `days[d].slots[s]`. -/
def setSlot (days : List DayPlan) (d s : ℕ) (f : Slot → Slot) : List DayPlan :=
  modIdx (fun day => { day with slots := modIdx f s day.slots }) d days

/-- Read `days[d].slots[s]`. -/
def getSlot? (days : List DayPlan) (d s : ℕ) : Option Slot :=
  (days.get? d).bind (fun day => day.slots.get? s)

/-- `WEEK_DAYS.indexOf((c as any).day)`: -1 when absent or unknown. -/
def indexOfDay (day : Option String) : ℤ :=
  match day with
  | none => -1
  | some s =>
    match WEEK_DAYS.findIdx? (fun d => d = s) with
    | some i => i
    | none => -1

/-- The mutation a constraint applies to a claimed slot. -/
def busySlot (title : String) (rule : SchedulerRule) (sl : Slot) : Slot :=
  { sl with
    type := .busy
    label := some title
    priority := none
    rationale := some rule }

/-- Scenario B (no target day): scan every day at position `s` while slots
remain. -/
def constraintScenarioB (title : String) (s : ℕ) (acc : List DayPlan × ℤ) :
    List DayPlan × ℤ :=
  (List.range acc.1.length).foldl
    (fun acc2 d =>
      if acc2.2 ≤ 0 then acc2
      else
        match getSlot? acc2.1 d s with
        | some sl =>
          if sl.type = .free then
            (setSlot acc2.1 d s (busySlot title .CONSTRAINT_GENERAL_DISTRIBUTION),
              acc2.2 - 1)
          else acc2
        | none => acc2)
    acc

/-- Step 2 for one constraint: scan positions from the evening backwards;
scenario A claims (or annotates) the named day's slot, scenario B
distributes across the week. -/
def applyConstraint (days : List DayPlan) (c : Constraint) : List DayPlan :=
  let total : ℤ := jsRound (jsOrQ c.duration 0 * 60 / (SLOT_MINUTES : ℚ))
  let tdi : ℤ := indexOfDay c.day
  (((List.range slotsPerDay).reverse).foldl
    (fun (acc : List DayPlan × ℤ) s =>
      if acc.2 ≤ 0 then acc
      else if tdi ≠ -1 then
        match getSlot? acc.1 tdi.toNat s with
        | some sl =>
          if sl.type = .free then
            (setSlot acc.1 tdi.toNat s (busySlot c.title .CONSTRAINT_SPECIFIC_DAY),
              acc.2 - 1)
          else
            (setSlot acc.1 tdi.toNat s
              (fun t => { t with rationale := some .SLOT_ALREADY_OCCUPIED }),
              acc.2)
        | none => acc
      else constraintScenarioB c.title s acc)
    (days, total)).1

/-- All constraints in input order. -/
def placeConstraints (days : List DayPlan) (cs : List Constraint) : List DayPlan :=
  cs.foldl applyConstraint days

/-- One entry of `goalStates`. -/
structure GoalState where
  id : Option ℚ := none
  title : String
  priority : Priority
  status : Option GoalStatus
  remainingMinutes : ℚ
  deadline : Option ℚ
  deriving DecidableEq, Repr

instance : Inhabited GoalState :=
  ⟨{ title := "", priority := .low, status := none, remainingMinutes := 0,
     deadline := none }⟩

/-- `goalStates`: remaining minutes start at `(targetHours || 0) * 60`. -/
def initGoalStates (goals : List Goal) : List GoalState :=
  goals.map fun g =>
    { id := g.id, title := g.title, priority := g.priority, status := g.status,
      remainingMinutes := jsOrQ g.targetHours 0 * 60, deadline := g.deadline }

/-- The exam heuristic trigger: note the code checks EVERY goal state with a
deadline, with no status filter. -/
def examSoon (gs : List GoalState) (p : WeeklyPlannerPolicy) (now : ℚ) : Bool :=
  gs.any fun g =>
    match g.deadline with
    | none => false
    | some dl =>
      let diffDays := (dl - now) / (24 * 60 * 60 * 1000)
      diffDays ≥ 0 ∧ diffDays ≤ p.examWindowDays

/-- The effective policy for this run (the stored policy is untouched). -/
def effectivePolicy (p : WeeklyPlannerPolicy) (soon : Bool) : WeeklyPlannerPolicy :=
  if soon then
    { p with
      morningWeight := clamp (p.morningWeight + p.examMorningBoost) 0.5 3
      eveningWeight := clamp (p.eveningWeight - p.examEveningPenalty) 0.3 3 }
  else p

/-- The exam-window rationale pass (guarded by `!slot.rationale`, which
never holds after initialisation, but translated faithfully). -/
def markExamRationale (days : List DayPlan) : List DayPlan :=
  days.map fun day =>
    { day with
      slots := day.slots.map fun sl =>
        if sl.type = .free ∧ sl.rationale = none then
          { sl with rationale := some .EXAM_WINDOW_ACTIVE }
        else sl }

/-- `bucketWeight`. -/
def bucketWeight (bucket : Bucket) (p : WeeklyPlannerPolicy) : ℚ :=
  match bucket with
  | .morning => p.morningWeight
  | .evening => p.eveningWeight
  | .midday => p.middayWeight

/-- `isContiguousFree` (an out-of-range slot reads as undefined ⇒ false). -/
def isContiguousFree (slots : List Slot) (start len : ℕ) : Bool :=
  (List.range len).all fun i =>
    match slots.get? (start + i) with
    | some sl => sl.type = .free
    | none => false

/-- `placeBlock`. -/
def placeBlock (daySlots : List Slot) (start len : ℕ) (title : String)
    (priority : Priority) : List Slot :=
  (List.range len).foldl
    (fun acc i =>
      modIdx
        (fun sl => { sl with
          type := .study
          label := some title
          priority := some priority })
        (start + i) acc)
    daySlots

/-- The rationale loop preceding `placeBlock`. -/
def writeBlockRationale (daySlots : List Slot) (start len : ℕ)
    (rule : SchedulerRule) : List Slot :=
  (List.range len).foldl
    (fun acc i => modIdx (fun sl => { sl with rationale := some rule })
      (start + i) acc)
    daySlots

/-- Best-candidate accumulator; `start = none` models `bestStart = -1` and
`score = none` models `bestScore = -Infinity`. -/
structure BestAcc where
  start : Option ℕ := none
  len : ℕ := 0
  score : Option ℚ := none
  bucket : Option Bucket := none
  deriving DecidableEq, Repr

/-- `gs[i]` (every use has `i < gs.length`). -/
def gsAt (gs : List GoalState) (i : ℕ) : GoalState := (gs.get? i).getD default

/-- The candidate scan over a day's slots for the selected goal.  Only slot
rationales can change (under `!rationale` guards); the best block found so
far is threaded through. -/
def scanGo (ep : WeeklyPlannerPolicy) (rem : ℚ) (used : ℕ) (maxPer : ℤ) :
    List ℕ → List Slot → BestAcc → List Slot × BestAcc
  | [], slots, best => (slots, best)
  | s :: rest, slots, best =>
    match slots.get? s with
    | none => scanGo ep rem used maxPer rest slots best
    | some sl =>
      if sl.type ≠ .free then
        let slots' :=
          if sl.rationale = none then
            modIdx (fun t => { t with rationale := some .CONSTRAINT_BLOCKED_SLOT })
              s slots
          else slots
        scanGo ep rem used maxPer rest slots' best
      else if (used : ℤ) ≥ maxPer then
        (if sl.rationale = none then
            modIdx (fun t => { t with rationale := some .DAILY_STUDY_LIMIT_REACHED })
              s slots
          else slots, best)
      else
        let hour : ℤ := ⌊sl.startMinutes / 60⌋
        let bucket := bucketForHour (hour : ℚ) ep
        let desiredMinutes :=
          match bucket with
          | .evening => ep.eveningStudyBlockMinutes
          | _ => ep.baseStudyBlockMinutes
        let desiredSlots : ℤ := max 1 (jsRound (desiredMinutes / (SLOT_MINUTES : ℚ)))
        let remainingSlotsForGoal : ℤ := max 1 ⌈rem / (SLOT_MINUTES : ℚ)⌉
        let remainingSlotsForDay : ℤ := maxPer - used
        let len : ℤ :=
          min (min (min desiredSlots remainingSlotsForGoal) remainingSlotsForDay)
            ((slots.length : ℤ) - s)
        if len ≤ 0 then scanGo ep rem used maxPer rest slots best
        else if ¬ isContiguousFree slots s len.toNat then
          scanGo ep rem used maxPer rest slots best
        else
          let weight := bucketWeight bucket ep
          let timePenalty := ((s : ℚ) / (slots.length : ℚ)) * 0.08
          let score := weight - timePenalty
          let better :=
            match best.score with
            | none => true
            | some b => score > b
          if better then
            scanGo ep rem used maxPer rest slots
              { start := some s
                len := len.toNat
                score := some score
                bucket := some bucket }
          else scanGo ep rem used maxPer rest slots best

/-- A goal state the round-robin skips. -/
def ineligible (gs : List GoalState) (i : ℕ) : Bool :=
  (gsAt gs i).remainingMinutes ≤ 0 ∨ (gsAt gs i).status = some .postponed

/-- The round-robin cursor search (`loops` bounds the walk to one cycle). -/
def findCursor (gs : List GoalState) (cursor loops : ℕ) : ℕ :=
  if ineligible gs cursor ∧ loops < gs.length then
    findCursor gs ((cursor + 1) % gs.length) (loops + 1)
  else cursor
termination_by gs.length - loops

/-- `g.remainingMinutes -= delta`. -/
def updRem (gs : List GoalState) (i : ℕ) (delta : ℚ) : List GoalState :=
  modIdx (fun g => { g with remainingMinutes := g.remainingMinutes - delta }) i gs

/-- The guarded postponed-goal rationale pass (dead after initialisation,
translated faithfully). -/
def markPostponed (slots : List Slot) : List Slot :=
  slots.map fun sl =>
    if sl.type = .free ∧ sl.rationale = none then
      { sl with rationale := some .GOAL_POSTPONED_SKIPPED }
    else sl

/-- The block rationale rule by bucket. -/
def blockRule (bucket : Option Bucket) : SchedulerRule :=
  match bucket with
  | some .morning => .GOAL_BLOCK_PLACED_MORNING
  | some .evening => .GOAL_BLOCK_PLACED_EVENING
  | _ => .GOAL_BLOCK_PLACED_MIDDAY

/-- Some goal still has remaining minutes and is not postponed. -/
def anyEligible (gs : List GoalState) : Bool :=
  gs.any fun g => g.remainingMinutes > 0 ∧ g.status ≠ some .postponed

/-- The `while (usedTodaySlots < maxPerDaySlots)` loop for one day.  Each
iteration either breaks or places a block of at least one slot, so the
supplied fuel (`maxPer.toNat + 1`) always outlasts the source loop; the
invariants proved below hold for every fuel. -/
def dayLoop (ep : WeeklyPlannerPolicy) (maxPer : ℤ) :
    ℕ → List GoalState → ℕ → List Slot → ℕ → List GoalState × ℕ × List Slot
  | 0, gs, cursor, slots, _ => (gs, cursor, slots)
  | fuel + 1, gs, cursor, slots, used =>
    if ¬ ((used : ℤ) < maxPer) then (gs, cursor, slots)
    else if ¬ anyEligible gs then (gs, cursor, slots)
    else
      let cursor' := findCursor gs cursor 0
      if ineligible gs cursor' then
        let slots' :=
          if (gsAt gs cursor').status = some .postponed then markPostponed slots
          else slots
        (gs, cursor', slots')
      else
        let g := gsAt gs cursor'
        let scanned :=
          scanGo ep g.remainingMinutes used maxPer (List.range slots.length)
            slots {}
        match scanned.2.start with
        | none => (gs, cursor', scanned.1)
        | some bs =>
          if scanned.2.len = 0 then (gs, cursor', scanned.1)
          else
            let slots' := writeBlockRationale scanned.1 bs scanned.2.len
              (blockRule scanned.2.bucket)
            let slots'' := placeBlock slots' bs scanned.2.len g.title g.priority
            let gs' := updRem gs cursor' ((scanned.2.len : ℚ) * (SLOT_MINUTES : ℚ))
            dayLoop ep maxPer fuel gs' ((cursor' + 1) % gs'.length) slots''
              (used + scanned.2.len)

/-- Fuel that always outlasts the day loop. -/
def dayFuel (maxPer : ℤ) : ℕ := maxPer.toNat + 1

/-- Step 4 day stepper: process the days in order, threading the goal
states and the round-robin cursor; the used counter resets per day. -/
def placeGoalsGo (ep : WeeklyPlannerPolicy) (maxPer : ℤ) :
    List DayPlan → List GoalState → ℕ → List DayPlan
  | [], _, _ => []
  | day :: rest, gs, cursor =>
    let res := dayLoop ep maxPer (dayFuel maxPer) gs cursor day.slots 0
    { day with slots := res.2.2 } :: placeGoalsGo ep maxPer rest res.1 res.2.1

/-- Step 4: place goals day by day; the cursor persists across days, the
used counter resets per day. -/
def placeGoals (ep : WeeklyPlannerPolicy) (maxPer : ℤ) (days : List DayPlan)
    (gs0 : List GoalState) : List DayPlan :=
  placeGoalsGo ep maxPer days gs0 0

/-- `buildWeeklyPlan`. -/
def buildWeeklyPlan (goals : List Goal) (constraints : List Constraint)
    (policy : WeeklyPlannerPolicy) (now : ℚ) : List DayPlan :=
  let days := placeConstraints initDays constraints
  let gs := initGoalStates goals
  if gs.length = 0 then days
  else
    let soon := examSoon gs policy now
    let ep := effectivePolicy policy soon
    let days' := if soon then markExamRationale days else days
    let maxPer : ℤ := ⌊jsOrQ ep.maxStudyMinutesPerDay 0 / (SLOT_MINUTES : ℚ)⌋
    placeGoals ep maxPer days' gs

/-- The start-minute list of a day (the grid's shape). -/
def dayStarts (day : DayPlan) : List ℚ := day.slots.map Slot.startMinutes

/-- Number of study slots in a slot list. -/
def studyCount (slots : List Slot) : ℕ :=
  (slots.filter fun sl => sl.type = .study).length

/-- Number of study slots labelled with a given title. -/
def labelStudy (t : String) (slots : List Slot) : ℕ :=
  (slots.filter fun sl => sl.type = .study ∧ sl.label = some t).length

instance : Inhabited DayPlan := ⟨{ dayName := "", slots := [] }⟩

/-- The first day of the empty-input plan (used by a witness). -/
def c10day : DayPlan :=
  (buildWeeklyPlan [] [] DEFAULT_WEEKLY_PLANNER_POLICY 0).headI

/-! ## GuardianAgent (src/guardian/GuardianAgent.ts) -/

/-- Issue kinds. -/
inductive IssueType where
  | CONFLICT
  | OVERLOAD
  | EXAM_PROXIMITY
  | MISSED_DEADLINE
  | POLICY_VIOLATION
  deriving DecidableEq, Repr

/-- Issue severities. -/
inductive IssueSeverity where
  | info
  | warning
  | critical
  deriving DecidableEq, Repr

/-- Suggested-fix actions. -/
inductive FixAction where
  | move
  | reduce
  | split
  | ignore
  deriving DecidableEq, Repr

/-- `GuardianIssue`; the Turkish message strings are presentation-only and
omitted, as is the fix description text. -/
structure GuardianIssue where
  type : IssueType
  severity : IssueSeverity
  relatedGoalId : Option ℚ := none
  relatedDate : Option String := none
  fixAction : Option FixAction := none
  deriving DecidableEq, Repr

/-- A day's study minutes as the guardian counts them (30 per study slot,
hardcoded). -/
def dayStudyMinutes (day : DayPlan) : ℚ :=
  day.slots.foldl (fun acc sl => if sl.type = .study then acc + 30 else acc) 0

/-- The per-goal deadline checks: `diffDays = Math.ceil((deadline - now) /
86_400_000)`; strictly negative ⇒ MISSED_DEADLINE, within `[0, 3]` and
under-scheduled ⇒ EXAM_PROXIMITY. -/
def goalIssues (plan : List DayPlan) (now : ℚ) (g : Goal) : List GuardianIssue :=
  match g.deadline with
  | none => []
  | some dl =>
    let diffDays : ℤ := ⌈(dl - now) / (1000 * 60 * 60 * 24)⌉
    if diffDays < 0 ∧ g.status ≠ some .completed then
      [{ type := .MISSED_DEADLINE
         severity := .critical
         relatedGoalId := g.id
         fixAction := some .ignore }]
    else if diffDays ≥ 0 ∧ diffDays ≤ 3 ∧ g.status ≠ some .completed then
      let goalBlocks :=
        ((plan.map DayPlan.slots).flatten.filter
          fun s => s.label = some g.title).length
      let assignedMinutes : ℚ := goalBlocks * 30
      let neededMinutes : ℚ := g.targetHours * 60
      if assignedMinutes < neededMinutes * 0.5 then
        [{ type := .EXAM_PROXIMITY
           severity := .warning
           relatedGoalId := g.id
           fixAction := some .move }]
      else []
    else []

/-- `analyzePlan` (the `constraints` parameter is accepted and never read,
as in the source; the observability `logEvent` side effect is out of the
model). -/
def analyzePlan (plan : List DayPlan) (goals : List Goal)
    (constraints : List Constraint) (maxStudyMinutesPerDay : ℚ) (now : ℚ) :
    List GuardianIssue :=
  let overload := plan.filterMap fun day =>
    if dayStudyMinutes day > maxStudyMinutesPerDay then
      some { type := .OVERLOAD
             severity := .warning
             relatedDate := some day.dayName
             fixAction := some .reduce }
    else none
  overload ++ goals.foldr (fun g acc => goalIssues plan now g ++ acc) []

/-- A postponed goal whose deadline is exactly one day away. -/
def c8goal : Goal :=
  { title := "X", targetHours := 1, priority := .low,
    status := some .postponed, deadline := some 86400000 }

/-- A non-completed goal whose deadline passed one hour before `now`. -/
def c9goal : Goal :=
  { title := "G", targetHours := 1, priority := .low,
    deadline := some 0, status := some .active }

/-! ## Measuring devices and concrete inputs for the scheduler claims -/

/-- The scheduling view of a slot: the fields a constraint claim consists
of and the fields the placement loop counts by. -/
def tl (sl : Slot) : SlotType × Option String := (sl.type, sl.label)

/-- `slots[j]` exists and is free (the body of `isContiguousFree`). -/
def freeAt (slots : List Slot) (j : ℕ) : Bool :=
  match slots.get? j with
  | some sl => sl.type = .free
  | none => false

/-- What a recorded best candidate guarantees: at least one slot, a
contiguous free block in the current slot list, no more slots than the
goal's remaining-minute quota, and room under the daily cap. -/
def accOk (slots : List Slot) (rem : ℚ) (used : ℕ) (maxPer : ℤ)
    (best : BestAcc) : Prop :=
  ∀ b, best.start = some b →
    1 ≤ best.len ∧ isContiguousFree slots b best.len = true ∧
      (best.len : ℤ) ≤ max 1 ⌈rem / (SLOT_MINUTES : ℚ)⌉ ∧
      (used : ℤ) + best.len ≤ maxPer

/-- Study slots across the whole plan carrying a goal's title. -/
def weekLabel (t : String) (days : List DayPlan) : ℕ :=
  (days.map fun day => labelStudy t day.slots).sum

/-- Free slots across the whole plan (the week's free capacity in slots). -/
def freeCount (days : List DayPlan) : ℕ :=
  (days.map fun day => (day.slots.filter fun sl => sl.type = .free).length).sum

/-- A goal asking for 45 minutes — not a multiple of the 30-minute slot. -/
def c5goalA : Goal := { title := "A", targetHours := 3/4, priority := .medium }

/-- A policy whose daily cap is a negative number of minutes. -/
def c6policy : WeeklyPlannerPolicy :=
  { DEFAULT_WEEKLY_PLANNER_POLICY with maxStudyMinutesPerDay := -30 }

/-- An ordinary one-hour goal. -/
def c6goal : Goal := { title := "B", targetHours := 1 }

/-- A goal with nothing left to schedule. -/
def c6wgoal : Goal := { title := "C", targetHours := 0 }

/-- The first day of the plan built from `c6goal` under `c6policy`. -/
def c6day0 : DayPlan := (buildWeeklyPlan [c6goal] [] c6policy 0).headI

/-- The first day of the plan built from `c6wgoal` under the default
policy. -/
def c6wday : DayPlan :=
  (buildWeeklyPlan [c6wgoal] [] DEFAULT_WEEKLY_PLANNER_POLICY 0).headI

/-- A ten-hour goal that fills study slots around the constraints. -/
def c7goal : Goal := { title := "Deep Work", targetHours := 10 }

/-- A one-hour constraint pinned to Tuesday. -/
def c7cons : Constraint := { title := "Gym", duration := 1, day := some "Sal\u0131" }

/-- The slot the Tuesday constraint claims last (21:30). -/
def c7slot : Slot :=
  { startMinutes := 1290, type := .busy, label := some "Gym",
    priority := none, rationale := some .CONSTRAINT_SPECIFIC_DAY }

/-! ### Basic lemmas about the resolver -/

theorem equpv_refl (a : Entity) : equpv a a := by
  unfold equpv; exact ⟨rfl, rfl, rfl, rfl, rfl, rfl⟩

theorem compareVectorClocks_self (c : VClock) :
    compareVectorClocks c c = .concurrent := by
  unfold compareVectorClocks
  simp

theorem adoptField_self {α : Type} [DecidableEq α] (a : Bool) (v : Option α) :
    adoptField a v v = v := by
  cases v with
  | none => rfl
  | some w => simp [adoptField]

theorem foldl_fixed {α β : Type} (f : α → β → α) (a : α) (l : List β)
    (h : ∀ b ∈ l, f a b = a) : l.foldl f a = a := by
  induction l with
  | nil => rfl
  | cons b rest ih =>
    have hb : f a b = a := h b (List.mem_cons_self b rest)
    rw [List.foldl_cons, hb]
    exact ih (fun x hx => h x (List.mem_cons_of_mem b hx))

theorem lookup_eq_of_mem {α β : Type} [BEq α] [LawfulBEq α]
    (l : List (α × β)) (k : α) (v : β)
    (hn : (l.map Prod.fst).Nodup) (hm : (k, v) ∈ l) :
    l.lookup k = some v := by
  induction l with
  | nil => simp at hm
  | cons p rest ih =>
    rw [List.map_cons, List.nodup_cons] at hn
    rcases List.mem_cons.mp hm with h | h
    · rw [← h]
      simp [List.lookup]
    · have hk : (k == p.1) = false := by
        refine beq_false_of_ne (fun hkk => hn.1 ?_)
        exact hkk ▸ List.mem_map.mpr ⟨(k, v), h, rfl⟩
      simp only [List.lookup, hk]
      exact ih hn.2 h

theorem mergeData_self (a : Bool) (d : List (String × JsVal))
    (hn : (d.map Prod.fst).Nodup) : mergeData a d d = d := by
  unfold mergeData
  apply foldl_fixed
  intro kv hkv
  rw [lookup_eq_of_mem d kv.1 kv.2 hn hkv]
  simp

theorem mergeFields_self (x : Entity) (hx : dataNodup x) :
    mergeFields x x = { x with version := some (x.version.getD 0 + 1) } := by
  unfold mergeFields
  simp [adoptField_self, mergeData_self _ _ hx]

/-- `resolve x x` always reaches the near-simultaneous field merge (equal
timestamps) and therefore returns `x` with its version bumped. -/
theorem resolve_self (x : Entity) (hx : dataNodup x) :
    resolve x x = { x with version := some (x.version.getD 0 + 1) } := by
  have hts : resolveByTimestamp x x = mergeFields x x := by
    unfold resolveByTimestamp
    simp
  have hv : resolveByVersion x x = mergeFields x x := by
    unfold resolveByVersion
    rcases hver : x.version with _ | v
    · exact hts
    · simp [hts]
  have hcl : resolveByClock x x = mergeFields x x := by
    unfold resolveByClock
    rcases hc : x.vectorClock with _ | c
    · exact hv
    · simp [compareVectorClocks_self, hv]
  unfold resolve
  have h1 : ¬ ((delFlag x : Prop) ∧ ¬ (delFlag x : Prop)) := fun h => h.2 h.1
  rw [if_neg h1, if_neg h1, hcl, mergeFields_self x hx]

/-- Every branch of `resolve` returns the local entity, the remote entity,
the field merge (with the conditions that guard it), or the remote-tombstone
adoption (with its conditions). -/
theorem resolve_cases (l r : Entity) :
    resolve l r = l ∨ resolve l r = r ∨
    (resolve l r = mergeFields l r ∧ ¬ r.updatedAt > l.updatedAt ∧
      |r.updatedAt - l.updatedAt| < 1000 ∧ delFlag l = delFlag r ∧
      vcUndecided l r = true) ∨
    (delFlag r = true ∧ delFlag l = false ∧ r.updatedAt > l.updatedAt ∧
      resolve l r = { l with isDeleted := some true, updatedAt := r.updatedAt }) := by
  unfold resolve
  split_ifs with h1 h2 h3 h4
  · exact Or.inr (Or.inl rfl)
  · exact Or.inl rfl
  · refine Or.inr (Or.inr (Or.inr ?_))
    refine ⟨by simpa using h3.1, by simpa using h3.2, h4, rfl⟩
  · exact Or.inl rfl
  · -- fall-through: delete flags agree
    have hdel : delFlag l = delFlag r := by
      by_cases hl : delFlag l = true <;> by_cases hr : delFlag r = true
      · rw [hl, hr]
      · exact absurd ⟨by simp [hl], by simp [hr]⟩ h1
      · exact absurd ⟨by simp [hr], by simp [hl]⟩ h3
      · simp at hl hr; rw [hl, hr]
    have hts : resolveByTimestamp l r = l ∨ resolveByTimestamp l r = r ∨
        (resolveByTimestamp l r = mergeFields l r ∧ ¬ r.updatedAt > l.updatedAt ∧
          |r.updatedAt - l.updatedAt| < 1000) := by
      unfold resolveByTimestamp
      split_ifs with ha hb
      · exact Or.inr (Or.inl rfl)
      · exact Or.inr (Or.inr ⟨rfl, ha, hb⟩)
      · exact Or.inl rfl
    have hver : resolveByVersion l r = l ∨ resolveByVersion l r = r ∨
        (resolveByVersion l r = mergeFields l r ∧ ¬ r.updatedAt > l.updatedAt ∧
          |r.updatedAt - l.updatedAt| < 1000) := by
      unfold resolveByVersion
      rcases hlv : l.version with _ | lv
      · exact hts
      · rcases hrv : r.version with _ | rv
        · exact hts
        · by_cases ha : rv > lv
          · refine Or.inr (Or.inl ?_)
            simp [ha]
          · by_cases hb : lv > rv
            · refine Or.inl ?_
              simp [ha, hb]
            · simpa [ha, hb] using hts
    unfold resolveByClock
    rcases hlc : l.vectorClock with _ | lc
    · rcases hver with h | h | ⟨h, ha, hb⟩
      · exact Or.inl h
      · exact Or.inr (Or.inl h)
      · exact Or.inr (Or.inr (Or.inl ⟨h, ha, hb, hdel, by unfold vcUndecided; rw [hlc]⟩))
    · rcases hrc : r.vectorClock with _ | rc
      · rcases hver with h | h | ⟨h, ha, hb⟩
        · exact Or.inl h
        · exact Or.inr (Or.inl h)
        · exact Or.inr (Or.inr (Or.inl ⟨h, ha, hb, hdel, by
            unfold vcUndecided; rw [hlc, hrc]⟩))
      · rcases hcmp : compareVectorClocks lc rc with _ | _ | _
        · refine Or.inl ?_
          simp [hcmp]
        · refine Or.inr (Or.inl ?_)
          simp [hcmp]
        · rcases hver with h | h | ⟨h, ha, hb⟩
          · refine Or.inl ?_
            simp [hcmp, h]
          · refine Or.inr (Or.inl ?_)
            simp [hcmp, h]
          · refine Or.inr (Or.inr (Or.inl ⟨?_, ha, hb, hdel, ?_⟩))
            · simp [hcmp, h]
            · simp [vcUndecided, hlc, hrc, hcmp]

/-- When both sides carry a truthy tombstone the resolved entity carries
one too, whichever branch fires. -/
theorem resolve_both_deleted (l r : Entity)
    (hl : delFlag l = true) (hr : delFlag r = true) :
    delFlag (resolve l r) = true := by
  rcases resolve_cases l r with h | h | ⟨h, _, _, _, _⟩ | ⟨_, h2, _, _⟩
  · rw [h]; exact hl
  · rw [h]; exact hr
  · rw [h]
    unfold delFlag at hl hr ⊢
    simp only [decide_eq_true_eq] at hl hr
    unfold mergeFields adoptField
    simp [hl, hr]
  · rw [hl] at h2; exact absurd h2 (by simp)

/-! ### Re-resolving a winner against the same remote -/

theorem adoptField_idem {α : Type} [DecidableEq α] (a : Bool) (lv rv : Option α) :
    adoptField a (adoptField a lv rv) rv = adoptField a lv rv := by
  rcases rv with _ | v
  · rfl
  · rcases lv with _ | w
    · simp [adoptField]
    · by_cases h : (w ≠ v ∧ (a : Prop))
      · simp [adoptField, h]
      · simp [adoptField, h]

theorem lookup_setJs_self (k : String) (v : JsVal) (d : List (String × JsVal)) :
    (setJs k v d).lookup k = some v := by
  induction d with
  | nil => simp [setJs, List.lookup]
  | cons p rest ih =>
    rcases p with ⟨pk, pv⟩
    by_cases hp : pk = k
    · simp [setJs, hp, List.lookup]
    · simp only [setJs, if_neg hp, List.lookup,
        show (k == pk) = false from beq_false_of_ne (fun hkk => hp hkk.symm)]
      exact ih

theorem lookup_setJs_ne (k : String) (v : JsVal) (d : List (String × JsVal))
    (k' : String) (h : k' ≠ k) : (setJs k v d).lookup k' = d.lookup k' := by
  induction d with
  | nil => simp [setJs, List.lookup, beq_false_of_ne h]
  | cons p rest ih =>
    rcases p with ⟨pk, pv⟩
    by_cases hp : pk = k
    · simp only [setJs, if_pos hp, List.lookup,
        show (k' == k) = false from beq_false_of_ne h,
        show (k' == pk) = false from beq_false_of_ne (fun hkk => h (hkk.trans hp))]
    · simp only [setJs, if_neg hp, List.lookup]
      cases hh : (k' == pk)
      · exact ih
      · rfl

theorem mergeData_eq_foldl (a : Bool) (ld rd : List (String × JsVal)) :
    mergeData a ld rd = rd.foldl (dStep ld a) ld := rfl

theorem lookup_dStep_ne (ld : List (String × JsVal)) (a : Bool)
    (acc : List (String × JsVal)) (kv : String × JsVal) (k : String)
    (h : kv.1 ≠ k) : (dStep ld a acc kv).lookup k = acc.lookup k := by
  unfold dStep
  rcases ld.lookup kv.1 with _ | w
  · exact lookup_setJs_ne kv.1 kv.2 acc k (Ne.symm h)
  · show List.lookup k
        (if w ≠ kv.2 ∧ a = true then setJs kv.1 kv.2 acc else acc) =
      List.lookup k acc
    split_ifs
    · exact lookup_setJs_ne kv.1 kv.2 acc k (Ne.symm h)
    · rfl

theorem lookup_foldl_dStep_ne (ld : List (String × JsVal)) (a : Bool)
    (rd : List (String × JsVal)) (acc : List (String × JsVal)) (k : String)
    (h : ∀ kv ∈ rd, kv.1 ≠ k) :
    (rd.foldl (dStep ld a) acc).lookup k = acc.lookup k := by
  induction rd generalizing acc with
  | nil => rfl
  | cons kv rest ih =>
    rw [List.foldl_cons, ih _ (fun x hx => h x (List.mem_cons_of_mem kv hx))]
    exact lookup_dStep_ne ld a acc kv k (h kv (List.mem_cons_self kv rest))

/-- Where the merged data ends up at a remote key: the remote value if the
loop adopts it, otherwise whatever the accumulator held. -/
theorem lookup_foldl_dStep (ld : List (String × JsVal)) (a : Bool)
    (rd : List (String × JsVal)) (acc : List (String × JsVal))
    (k : String) (v : JsVal)
    (hn : (rd.map Prod.fst).Nodup) (hm : (k, v) ∈ rd) :
    (rd.foldl (dStep ld a) acc).lookup k =
      (if wouldAdopt ld a k v then some v else acc.lookup k) := by
  induction rd generalizing acc with
  | nil => simp at hm
  | cons kv rest ih =>
    rw [List.map_cons, List.nodup_cons] at hn
    rcases List.mem_cons.mp hm with h | h
    · have hrest : ∀ kv' ∈ rest, kv'.1 ≠ k := by
        intro kv' hkv' hkk
        rw [← h] at hn
        exact hn.1 (hkk ▸ List.mem_map.mpr ⟨kv', hkv', rfl⟩)
      rw [← h, List.foldl_cons,
        lookup_foldl_dStep_ne ld a rest _ k hrest]
      unfold dStep wouldAdopt
      dsimp only
      rcases ld.lookup k with _ | w
      · simp [lookup_setJs_self]
      · by_cases hc : (w ≠ v ∧ a = true)
        · simp [hc, lookup_setJs_self]
        · simp [hc]
    · have hkk : kv.1 ≠ k := by
        intro he
        refine hn.1 ?_
        rw [he]
        exact List.mem_map.mpr ⟨(k, v), h, rfl⟩
      rw [List.foldl_cons, ih _ hn.2 h, lookup_dStep_ne ld a acc kv k hkk]

theorem mergeData_idem (a : Bool) (ld rd : List (String × JsVal))
    (hn : (rd.map Prod.fst).Nodup) :
    mergeData a (mergeData a ld rd) rd = mergeData a ld rd := by
  rw [mergeData_eq_foldl a (mergeData a ld rd) rd]
  apply foldl_fixed
  intro kv hkv
  rcases kv with ⟨k, v⟩
  have hlk : (mergeData a ld rd).lookup k =
      (if wouldAdopt ld a k v then some v else ld.lookup k) := by
    rw [mergeData_eq_foldl]
    exact lookup_foldl_dStep ld a rd ld k v hn hkv
  by_cases hwa : wouldAdopt ld a k v = true
  · rw [hwa, if_pos rfl] at hlk
    unfold dStep
    rw [hlk]
    show (if v ≠ v ∧ a = true then setJs k v (mergeData a ld rd)
        else mergeData a ld rd) = mergeData a ld rd
    simp
  · have hwa' := hwa
    unfold wouldAdopt at hwa'
    rw [Bool.not_eq_true] at hwa
    rw [hwa] at hlk
    simp only [Bool.false_eq_true, if_false] at hlk
    rcases hld : ld.lookup k with _ | w
    · rw [hld] at hwa'
      simp at hwa'
    · rw [hld] at hwa' hlk
      unfold dStep
      rw [hlk]
      show (if w ≠ v ∧ a = true then setJs k v (mergeData a ld rd)
          else mergeData a ld rd) = mergeData a ld rd
      have hcond : ¬ (w ≠ v ∧ a = true) := by
        intro hc
        simp [hc.1, hc.2] at hwa'
      rw [if_neg hcond]

theorem delFlag_mergeFields (l r : Entity) (hdel : delFlag l = delFlag r) :
    delFlag (mergeFields l r) = delFlag r := by
  unfold delFlag at hdel ⊢
  rw [decide_eq_decide] at hdel ⊢
  have hmf : (mergeFields l r).isDeleted =
      adoptField (decide (r.updatedAt ≥ l.updatedAt)) l.isDeleted r.isDeleted := rfl
  rw [hmf]
  rcases hl : l.isDeleted with _ | bl <;> rcases hr : r.isDeleted with _ | br
  · simp [adoptField]
  · simp [adoptField]
  · rw [hl, hr] at hdel
    simpa [adoptField] using hdel
  · rw [hl, hr] at hdel
    have hbb : bl = br := by simpa using hdel
    subst hbb
    simp [adoptField]

theorem updatedAt_mergeFields (l r : Entity) (h : ¬ r.updatedAt > l.updatedAt) :
    (mergeFields l r).updatedAt = l.updatedAt := by
  have : (mergeFields l r).updatedAt = max l.updatedAt r.updatedAt := rfl
  rw [this, max_eq_left (le_of_not_lt h)]

/-- Re-resolving a field-merge result against the same remote never changes
anything except (possibly) the version counter. -/
theorem resolve_merge_again (l r : Entity)
    (hdel : delFlag l = delFlag r)
    (hvc : vcUndecided l r = true)
    (hts : ¬ r.updatedAt > l.updatedAt)
    (hlt : |r.updatedAt - l.updatedAt| < 1000)
    (hr : dataNodup r) :
    equpv (resolve (mergeFields l r) r) (mergeFields l r) := by
  set w := mergeFields l r with hw
  have f1 : w.updatedAt = l.updatedAt := updatedAt_mergeFields l r hts
  have f2 : delFlag w = delFlag r := delFlag_mergeFields l r hdel
  have hguards : resolve w r = resolveByClock w r := by
    unfold resolve
    rw [if_neg (fun h => h.2 (f2 ▸ h.1)), if_neg (fun h => h.2 (f2.symm ▸ h.1))]
  have hclock : resolveByClock w r = resolveByVersion w r := by
    have hwvc : w.vectorClock =
        adoptField (decide (r.updatedAt ≥ l.updatedAt)) l.vectorClock r.vectorClock := rfl
    unfold resolveByClock
    rcases hlc : l.vectorClock with _ | lc <;> rcases hrc : r.vectorClock with _ | rc
    · rw [show w.vectorClock = none from by rw [hwvc, hlc, hrc]; rfl]
    · rw [show w.vectorClock = some rc from by rw [hwvc, hlc, hrc]; rfl]
      simp [compareVectorClocks_self]
    · rw [show w.vectorClock = some lc from by rw [hwvc, hlc, hrc]; rfl]
    · have hcmp : compareVectorClocks lc rc = .concurrent := by
        simpa [vcUndecided, hlc, hrc] using hvc
      rw [hwvc, hlc, hrc]
      by_cases hadopt : (¬ lc = rc ∧ l.updatedAt ≤ r.updatedAt)
      · simp [adoptField, hadopt, compareVectorClocks_self]
      · simp [adoptField, hadopt, hcmp]
  rw [hguards, hclock]
  have hwver : w.version = some (max (l.version.getD 0) (r.version.getD 0) + 1) := rfl
  rcases hrv : r.version with _ | rv
  · have hstep : resolveByVersion w r = resolveByTimestamp w r := by
      unfold resolveByVersion
      rw [hwver, hrv]
    have hts2 : resolveByTimestamp w r = mergeFields w r := by
      unfold resolveByTimestamp
      rw [f1, if_neg hts, if_pos hlt]
    rw [hstep, hts2]
    refine ⟨rfl, rfl, ?_, ?_, ?_, ?_⟩
    · have : (mergeFields w r).updatedAt = max w.updatedAt r.updatedAt := rfl
      rw [this, f1, max_eq_left (le_of_not_lt hts)]
    · have h1 : (mergeFields w r).isDeleted =
          adoptField (decide (r.updatedAt ≥ w.updatedAt)) w.isDeleted r.isDeleted := rfl
      have h2 : w.isDeleted =
          adoptField (decide (r.updatedAt ≥ l.updatedAt)) l.isDeleted r.isDeleted := rfl
      rw [h1, f1, h2]
      exact adoptField_idem _ _ _
    · have h1 : (mergeFields w r).vectorClock =
          adoptField (decide (r.updatedAt ≥ w.updatedAt)) w.vectorClock r.vectorClock := rfl
      have h2 : w.vectorClock =
          adoptField (decide (r.updatedAt ≥ l.updatedAt)) l.vectorClock r.vectorClock := rfl
      rw [h1, f1, h2]
      exact adoptField_idem _ _ _
    · have h1 : (mergeFields w r).data =
          mergeData (decide (r.updatedAt ≥ w.updatedAt)) w.data r.data := rfl
      have h2 : w.data =
          mergeData (decide (r.updatedAt ≥ l.updatedAt)) l.data r.data := rfl
      rw [h1, f1, h2]
      exact mergeData_idem _ _ _ hr
  · have hwver' : w.version = some (max (l.version.getD 0) rv + 1) := by
      simp [hwver, hrv]
    have hlt' : rv < max (l.version.getD 0) rv + 1 :=
      lt_of_le_of_lt (le_max_right _ _) (lt_add_one _)
    have hstep : resolveByVersion w r = w := by
      unfold resolveByVersion
      rw [hwver', hrv]
      show (if rv > max (l.version.getD 0) rv + 1 then r
          else if max (l.version.getD 0) rv + 1 > rv then w
          else resolveByTimestamp w r) = w
      rw [if_neg (lt_asymm hlt'), if_pos hlt']
    rw [hstep]
    exact equpv_refl w

/-- Second resolution against the same remote snapshot: unless the pair is
the live-local / strictly-newer-deleted-remote one, the result agrees with
the first resolution on every field except (possibly) `version`. -/
theorem resolve_again (l r : Entity) (hr : dataNodup r)
    (hbad : ¬ (delFlag r = true ∧ delFlag l = false ∧ r.updatedAt > l.updatedAt)) :
    equpv (resolve (resolve l r) r) (resolve l r) := by
  rcases resolve_cases l r with h | h | ⟨h, hts, hlt, hdel, hvc⟩ | ⟨h1, h2, h3, _⟩
  · rw [h, h]
    exact equpv_refl l
  · rw [h, resolve_self r hr]
    exact ⟨rfl, rfl, rfl, rfl, rfl, rfl⟩
  · rw [h]
    exact resolve_merge_again l r hdel hvc hts hlt hr
  · exact absurd ⟨h1, h2, h3⟩ hbad

/-! ### The entity map -/

theorem equpv_trans {a b c : Entity} (h1 : equpv a b) (h2 : equpv b c) :
    equpv a c := by
  obtain ⟨a1, a2, a3, a4, a5, a6⟩ := h1
  obtain ⟨b1, b2, b3, b4, b5, b6⟩ := h2
  exact ⟨a1.trans b1, a2.trans b2, a3.trans b3, a4.trans b4, a5.trans b5,
    a6.trans b6⟩

theorem lookup_setE_self (k : MKey) (v : Entity) (m : EMap) :
    (setE k v m).lookup k = some v := by
  induction m with
  | nil => simp [setE, List.lookup]
  | cons p rest ih =>
    rcases p with ⟨pk, pv⟩
    by_cases hp : pk = k
    · simp [setE, hp, List.lookup]
    · simp only [setE, if_neg hp, List.lookup,
        show (k == pk) = false from beq_false_of_ne (fun hkk => hp hkk.symm)]
      exact ih

theorem lookup_setE_ne (k : MKey) (v : Entity) (m : EMap)
    (k' : MKey) (h : k' ≠ k) : (setE k v m).lookup k' = m.lookup k' := by
  induction m with
  | nil => simp [setE, List.lookup, beq_false_of_ne h]
  | cons p rest ih =>
    rcases p with ⟨pk, pv⟩
    by_cases hp : pk = k
    · simp only [setE, if_pos hp, List.lookup,
        show (k' == k) = false from beq_false_of_ne h,
        show (k' == pk) = false from beq_false_of_ne (fun hkk => h (hkk.trans hp))]
    · simp only [setE, if_neg hp, List.lookup]
      cases hh : (k' == pk)
      · exact ih
      · rfl

theorem mem_setE (k : MKey) (v : Entity) (m : EMap) (p : MKey × Entity)
    (h : p ∈ setE k v m) : p = (k, v) ∨ p ∈ m := by
  induction m with
  | nil => simpa [setE] using h
  | cons q rest ih =>
    rcases q with ⟨qk, qv⟩
    by_cases hq : qk = k
    · simp only [setE, if_pos hq] at h
      rcases List.mem_cons.mp h with h | h
      · exact Or.inl h
      · exact Or.inr (List.mem_cons_of_mem _ h)
    · simp only [setE, if_neg hq] at h
      rcases List.mem_cons.mp h with h | h
      · exact Or.inr (h ▸ List.mem_cons_self _ _)
      · rcases ih h with h | h
        · exact Or.inl h
        · exact Or.inr (List.mem_cons_of_mem _ h)

theorem keys_setE (k : MKey) (v : Entity) (m : EMap) :
    (setE k v m).map Prod.fst =
      (if k ∈ m.map Prod.fst then m.map Prod.fst else m.map Prod.fst ++ [k]) := by
  induction m with
  | nil => simp [setE]
  | cons q rest ih =>
    rcases q with ⟨qk, qv⟩
    by_cases hq : qk = k
    · simp [setE, hq]
    · simp only [setE, if_neg hq, List.map_cons, ih]
      by_cases hmem : k ∈ rest.map Prod.fst
      · simp [hmem, Ne.symm hq]
      · simp [hmem, Ne.symm hq]

theorem nodup_keys_setE (k : MKey) (v : Entity) (m : EMap)
    (h : (m.map Prod.fst).Nodup) : ((setE k v m).map Prod.fst).Nodup := by
  rw [keys_setE]
  by_cases hmem : k ∈ m.map Prod.fst
  · rwa [if_pos hmem]
  · rw [if_neg hmem]
    simp [List.nodup_append, h, hmem]

theorem lookup_mem {α β : Type} [BEq α] [LawfulBEq α]
    (l : List (α × β)) (k : α) (v : β) (h : l.lookup k = some v) : (k, v) ∈ l := by
  induction l with
  | nil => simp [List.lookup] at h
  | cons p rest ih =>
    rcases p with ⟨pk, pv⟩
    rcases hk : (k == pk) with _ | _
    · simp only [List.lookup, hk] at h
      exact List.mem_cons_of_mem _ (ih h)
    · simp only [List.lookup, hk] at h
      have hv : pv = v := by injection h
      rw [← eq_of_beq hk, ← hv]
      exact List.mem_cons_self _ _


/-- The resolver only ever hands back identity fields taken wholesale from
one of its two arguments, so the winner keeps the shared key. -/
theorem jsKey_resolve (l r : Entity) (k : MKey)
    (hl : jsKey l = some k) (hr : jsKey r = some k) :
    jsKey (resolve l r) = some k := by
  have hids : ((resolve l r).uuid = l.uuid ∧ (resolve l r).id = l.id) ∨
      ((resolve l r).uuid = r.uuid ∧ (resolve l r).id = r.id) := by
    rcases resolve_cases l r with h | h | ⟨h, _, _, _, _⟩ | ⟨_, _, _, h⟩
    · rw [h]; exact Or.inl ⟨rfl, rfl⟩
    · rw [h]; exact Or.inr ⟨rfl, rfl⟩
    · rw [h]; exact Or.inl ⟨rfl, rfl⟩
    · rw [h]; exact Or.inl ⟨rfl, rfl⟩
  have hcongr : ∀ a b : Entity, a.uuid = b.uuid → a.id = b.id →
      jsKey a = jsKey b := by
    intro a b h1 h2
    unfold jsKey
    rw [h1, h2]
  rcases hids with ⟨h1, h2⟩ | ⟨h1, h2⟩
  · rw [hcongr _ _ h1 h2]; exact hl
  · rw [hcongr _ _ h1 h2]; exact hr

theorem goodMap_setE (k : MKey) (v : Entity) (m : EMap)
    (hm : goodMap m) (hv : jsKey v = some k) : goodMap (setE k v m) := by
  refine ⟨?_, nodup_keys_setE k v m hm.2⟩
  intro p hp
  rcases mem_setE k v m p hp with h | h
  · rw [h]; exact hv
  · exact hm.1 p h

theorem goodMap_insStep (m : EMap) (e : Entity) (hm : goodMap m) :
    goodMap (insStep m e) := by
  unfold insStep
  rcases hk : jsKey e with _ | k
  · exact hm
  · exact goodMap_setE k e m hm hk

theorem goodMap_mergeStep (m : EMap) (e : Entity) (hm : goodMap m) :
    goodMap (mergeStep m e) := by
  unfold mergeStep
  rcases hk : jsKey e with _ | k
  · exact hm
  · show goodMap (match m.lookup k with
      | some le => setE k (resolve le e) m
      | none => setE k e m)
    rcases hl : m.lookup k with _ | le
    · exact goodMap_setE k e m hm hk
    · refine goodMap_setE k (resolve le e) m hm ?_
      have hmem : (k, le) ∈ m := lookup_mem m k le hl
      exact jsKey_resolve le e k (hm.1 _ hmem) hk

theorem goodMap_insFold (L : List Entity) (m : EMap) (hm : goodMap m) :
    goodMap (L.foldl insStep m) := by
  induction L generalizing m with
  | nil => exact hm
  | cons e rest ih => exact ih _ (goodMap_insStep m e hm)

theorem goodMap_mergeFold (R : List Entity) (m : EMap) (hm : goodMap m) :
    goodMap (R.foldl mergeStep m) := by
  induction R generalizing m with
  | nil => exact hm
  | cons e rest ih => exact ih _ (goodMap_mergeStep m e hm)

theorem goodMap_nil : goodMap [] := ⟨by intro p hp; simp at hp, List.nodup_nil⟩

theorem mem_insFold_values (L : List Entity) (acc : EMap) (p : MKey × Entity)
    (h : p ∈ L.foldl insStep acc) : p ∈ acc ∨ p.2 ∈ L := by
  induction L generalizing acc with
  | nil => exact Or.inl h
  | cons e rest ih =>
    rcases ih (insStep acc e) h with h | h
    · unfold insStep at h
      rcases hk : jsKey e with _ | k
      · rw [hk] at h
        exact Or.inl h
      · rw [hk] at h
        rcases mem_setE k e acc p h with h | h
        · exact Or.inr (by rw [h]; exact List.mem_cons_self _ _)
        · exact Or.inl h
    · exact Or.inr (List.mem_cons_of_mem _ h)

theorem setE_append (k : MKey) (v : Entity) (m : EMap)
    (h : k ∉ m.map Prod.fst) : setE k v m = m ++ [(k, v)] := by
  induction m with
  | nil => simp [setE]
  | cons q rest ih =>
    rcases q with ⟨qk, qv⟩
    simp only [List.map_cons, List.mem_cons] at h
    push_neg at h
    simp only [setE, if_neg (Ne.symm h.1 : ¬ qk = k), List.cons_append]
    rw [ih h.2]

/-- Re-indexing a well-formed map's value list rebuilds exactly the map. -/
theorem rebuild (m : EMap) : ∀ (acc : EMap),
    (((acc ++ m).map Prod.fst).Nodup) →
    (∀ p ∈ m, jsKey p.2 = some p.1) →
    (m.map Prod.snd).foldl insStep acc = acc ++ m := by
  induction m with
  | nil => intro acc _ _; simp
  | cons p rest ih =>
    intro acc hnd hkeys
    rcases p with ⟨k, e⟩
    have hke : jsKey e = some k := hkeys (k, e) (List.mem_cons_self _ _)
    have hstep : insStep acc e = acc ++ [(k, e)] := by
      unfold insStep
      rw [hke]
      refine setE_append k e acc ?_
      intro hmem
      rw [List.map_append] at hnd
      rcases List.nodup_append.mp hnd with ⟨_, _, hdisj⟩
      exact hdisj hmem (by simp)
    rw [List.map_cons, List.foldl_cons, hstep, ih (acc ++ [(k, e)])
      (by rwa [List.append_assoc, List.singleton_append])
      (fun p hp => hkeys p (List.mem_cons_of_mem _ hp))]
    rw [List.append_assoc, List.singleton_append]

theorem lookup_mergeStep_ne (m : EMap) (e : Entity) (k : MKey)
    (h : jsKey e ≠ some k) : (mergeStep m e).lookup k = m.lookup k := by
  unfold mergeStep
  rcases hk : jsKey e with _ | k'
  · rfl
  · have hne : k ≠ k' := fun hkk => h (by rw [hk, hkk])
    show List.lookup k (match m.lookup k' with
      | some le => setE k' (resolve le e) m
      | none => setE k' e m) = List.lookup k m
    rcases m.lookup k' with _ | le
    · exact lookup_setE_ne k' e m k hne
    · exact lookup_setE_ne k' (resolve le e) m k hne

theorem lookup_mergeFold_ne (R : List Entity) (m : EMap) (k : MKey)
    (h : ∀ r ∈ R, jsKey r ≠ some k) :
    (R.foldl mergeStep m).lookup k = m.lookup k := by
  induction R generalizing m with
  | nil => rfl
  | cons r rest ih =>
    rw [List.foldl_cons, ih _ (fun x hx => h x (List.mem_cons_of_mem r hx)),
      lookup_mergeStep_ne m r k (h r (List.mem_cons_self r rest))]

/-- What the first merge pass stores under the key of a remote entity. -/
theorem lookup_firstPass (R : List Entity) :
    ∀ (m0 : EMap) (r : Entity) (k : MKey),
    (R.filterMap jsKey).Nodup → r ∈ R → jsKey r = some k →
    (R.foldl mergeStep m0).lookup k =
      some (match m0.lookup k with | some le => resolve le r | none => r) := by
  induction R with
  | nil => intro m0 r k _ hmem; simp at hmem
  | cons r' rest ih =>
    intro m0 r k hnd hmem hk
    rcases List.mem_cons.mp hmem with h | h
    · subst h
      have hcons : (r :: rest).filterMap jsKey = k :: rest.filterMap jsKey := by
        simp [List.filterMap_cons, hk]
      rw [hcons] at hnd
      have hknotin : k ∉ rest.filterMap jsKey := (List.nodup_cons.mp hnd).1
      have hrest : ∀ x ∈ rest, jsKey x ≠ some k := by
        intro x hx hxk
        exact hknotin (List.mem_filterMap.mpr ⟨x, hx, hxk⟩)
      rw [List.foldl_cons, lookup_mergeFold_ne rest _ k hrest]
      unfold mergeStep
      rw [hk]
      show List.lookup k (match m0.lookup k with
          | some le => setE k (resolve le r) m0
          | none => setE k r m0) =
        some (match m0.lookup k with | some le => resolve le r | none => r)
      rcases m0.lookup k with _ | le
      · exact lookup_setE_self k r m0
      · exact lookup_setE_self k (resolve le r) m0
    · have hkmem : k ∈ rest.filterMap jsKey := List.mem_filterMap.mpr ⟨r, h, hk⟩
      have hr' : jsKey r' ≠ some k := by
        intro hr'k
        have hcons : (r' :: rest).filterMap jsKey = k :: rest.filterMap jsKey := by
          simp [List.filterMap_cons, hr'k]
        rw [hcons] at hnd
        exact (List.nodup_cons.mp hnd).1 hkmem
      have hndrest : (rest.filterMap jsKey).Nodup := by
        rw [List.filterMap_cons] at hnd
        rcases hjk : jsKey r' with _ | k'
        · rwa [hjk] at hnd
        · rw [hjk] at hnd
          exact (List.nodup_cons.mp hnd).2
      rw [List.foldl_cons, ih _ r k hndrest h hk,
        lookup_mergeStep_ne m0 r' k hr']

theorem RelS_refl (S : List MKey) (m : EMap) : RelS S m m := by
  unfold RelS
  induction m with
  | nil => exact List.Forall₂.nil
  | cons p rest ih =>
    exact List.Forall₂.cons ⟨rfl, equpv_refl _, fun _ => rfl⟩ ih

theorem RelS_mono (S S' : List MKey) (m mA : EMap)
    (h : RelS S m mA) (hsub : ∀ x ∈ S', x ∈ S) : RelS S' m mA := by
  refine List.Forall₂.imp ?_ h
  intro p q ⟨h1, h2, h3⟩
  exact ⟨h1, h2, fun hx => h3 (hsub _ hx)⟩

theorem RelS_lookup (S : List MKey) : ∀ (m mA : EMap),
    RelS S m mA → ∀ k ∈ S, m.lookup k = mA.lookup k := by
  intro m
  induction m with
  | nil =>
    intro mA hrel k _
    cases hrel
    rfl
  | cons p m₁ ih =>
    intro mA hrel k hk
    cases hrel with
    | cons hpq htail =>
      rename_i q mA₁
      obtain ⟨hkey, _, hmem⟩ := hpq
      rcases p with ⟨pk, pv⟩
      rcases q with ⟨qk, qv⟩
      simp only at hkey
      rcases hbe : (k == pk) with _ | _
      · have hbe2 : (k == qk) = false := by rwa [← hkey]
        simp only [List.lookup, hbe, hbe2]
        exact ih mA₁ htail k hk
      · have hpk : k = pk := eq_of_beq hbe
        have hpq2 : (pk, pv) = (qk, qv) := hmem (by show pk ∈ S; rwa [← hpk])
        have hbe2 : (k == qk) = true := by
          rw [show qk = pk from (congrArg Prod.fst hpq2).symm]
          exact hbe
        simp only [List.lookup, hbe, hbe2]
        rw [show pv = qv from congrArg Prod.snd hpq2]

theorem RelS_setE (k : MKey) (v : Entity) : ∀ (m mA : EMap) (S S' : List MKey),
    RelS S m mA → (∀ x ∈ S', x ∈ S) → k ∉ S' →
    (∃ w, m.lookup k = some w ∧ equpv v w) →
    RelS S' (setE k v m) mA := by
  intro m
  induction m with
  | nil =>
    intro mA S S' hrel _ _ hl
    obtain ⟨w, hw, _⟩ := hl
    simp [List.lookup] at hw
  | cons p m₁ ih =>
    intro mA S S' hrel hsub hk hl
    cases hrel with
    | cons hpq htail =>
      rename_i q mA₁
      obtain ⟨hkey, hequ, hmem⟩ := hpq
      obtain ⟨w, hw, hvw⟩ := hl
      rcases p with ⟨pk, pv⟩
      by_cases hpk : pk = k
      · simp only [setE, if_pos hpk]
        refine List.Forall₂.cons ?_ (RelS_mono S S' m₁ mA₁ htail hsub)
        have hwp : w = pv := by
          have : List.lookup k ((pk, pv) :: m₁) = some pv := by
            simp [List.lookup, beq_iff_eq, hpk.symm]
          rw [this] at hw
          injection hw with hw
          exact hw.symm
        refine ⟨by simp only at hkey; rw [← hpk]; exact hkey, ?_,
          fun hmem' => absurd hmem' hk⟩
        exact equpv_trans (hwp ▸ hvw) hequ
      · simp only [setE, if_neg hpk]
        refine List.Forall₂.cons ⟨hkey, hequ, fun h => hmem (hsub _ h)⟩ ?_
        refine ih mA₁ S S' htail hsub hk ⟨w, ?_, hvw⟩
        have hbe : (k == pk) = false := beq_false_of_ne (fun h => hpk h.symm)
        simpa [List.lookup, hbe] using hw

/-- Folding the remote list a second time over the first-pass map only
replaces entries by `equpv`-equal ones. -/
theorem second_pass (R : List Entity) : ∀ (mA m : EMap),
    RelS (R.filterMap jsKey) m mA →
    (R.filterMap jsKey).Nodup →
    (∀ r ∈ R, ∀ k, jsKey r = some k →
      ∃ w, mA.lookup k = some w ∧ equpv (resolve w r) w) →
    RelS [] (R.foldl mergeStep m) mA := by
  induction R with
  | nil =>
    intro mA m hrel _ _
    exact RelS_mono _ [] m mA hrel (by simp)
  | cons r rest ih =>
    intro mA m hrel hnd hok
    rw [List.foldl_cons]
    rcases hk : jsKey r with _ | k
    · have hstep : mergeStep m r = m := by unfold mergeStep; rw [hk]
      have hfm : (r :: rest).filterMap jsKey = rest.filterMap jsKey := by
        simp [List.filterMap_cons, hk]
      rw [hstep]
      refine ih mA m ?_ ?_ ?_
      · rwa [hfm] at hrel
      · rwa [hfm] at hnd
      · exact fun r' hr' => hok r' (List.mem_cons_of_mem r hr')
    · have hfm : (r :: rest).filterMap jsKey = k :: rest.filterMap jsKey := by
        simp [List.filterMap_cons, hk]
      rw [hfm] at hrel hnd
      obtain ⟨w, hwA, hwres⟩ := hok r (List.mem_cons_self r rest) k hk
      have hlook : m.lookup k = some w := by
        rw [RelS_lookup _ m mA hrel k (List.mem_cons_self _ _)]
        exact hwA
      have hstep : mergeStep m r = setE k (resolve w r) m := by
        unfold mergeStep
        rw [hk]
        show (match m.lookup k with
          | some le => setE k (resolve le r) m
          | none => setE k r m) = setE k (resolve w r) m
        rw [hlook]
      rw [hstep]
      refine ih mA _ ?_ (List.nodup_cons.mp hnd).2
        (fun r' hr' => hok r' (List.mem_cons_of_mem r hr'))
      exact RelS_setE k (resolve w r) m mA _ _ hrel
        (fun x hx => List.mem_cons_of_mem k hx)
        (List.nodup_cons.mp hnd).1
        ⟨w, hlook, hwres⟩

theorem forall₂_map_snd {P : Entity → Entity → Prop} : ∀ (m mA : EMap),
    List.Forall₂ (fun p q : MKey × Entity => P p.2 q.2) m mA →
    List.Forall₂ P (m.map Prod.snd) (mA.map Prod.snd) := by
  intro m
  induction m with
  | nil =>
    intro mA h
    cases h
    exact List.Forall₂.nil
  | cons p m₁ ih =>
    intro mA h
    cases h with
    | cons hpq htail =>
      exact List.Forall₂.cons hpq (ih _ htail)

/-- Without the live-local / newer-deleted-remote pairs, re-merging the same
remote list changes each entity at most in its version counter. -/
theorem mergeLists_again (L R : List Entity)
    (hR : (R.filterMap jsKey).Nodup)
    (hdataR : ∀ r ∈ R, dataNodup r)
    (hbad : ∀ l ∈ L, ∀ r ∈ R, ∀ k, jsKey l = some k → jsKey r = some k →
      ¬ (delFlag r = true ∧ delFlag l = false ∧ r.updatedAt > l.updatedAt)) :
    List.Forall₂ equpv (mergeLists (mergeLists L R) R) (mergeLists L R) := by
  have hgood0 : goodMap (L.foldl insStep []) := goodMap_insFold L [] goodMap_nil
  set mA := R.foldl mergeStep (L.foldl insStep []) with hmA
  have hgoodA : goodMap mA := goodMap_mergeFold R _ hgood0
  have hrebuild : (mA.map Prod.snd).foldl insStep [] = mA := by
    have := rebuild mA [] (by simpa using hgoodA.2) hgoodA.1
    simpa using this
  have hM2 : mergeLists (mergeLists L R) R = (R.foldl mergeStep mA).map Prod.snd := by
    unfold mergeLists
    rw [← hmA, hrebuild]
  have hok : ∀ r ∈ R, ∀ k, jsKey r = some k →
      ∃ w, mA.lookup k = some w ∧ equpv (resolve w r) w := by
    intro r hr k hk
    have hfp := lookup_firstPass R (L.foldl insStep []) r k hR hr hk
    rw [← hmA] at hfp
    rcases hm0 : (L.foldl insStep []).lookup k with _ | le
    · rw [hm0] at hfp
      refine ⟨r, hfp, ?_⟩
      rw [resolve_self r (hdataR r hr)]
      exact ⟨rfl, rfl, rfl, rfl, rfl, rfl⟩
    · rw [hm0] at hfp
      refine ⟨resolve le r, hfp, ?_⟩
      have hlemem : le ∈ L := by
        have hpm : (k, le) ∈ L.foldl insStep [] := lookup_mem _ k le hm0
        rcases mem_insFold_values L [] (k, le) hpm with h | h
        · simp at h
        · exact h
      have hlekey : jsKey le = some k := hgood0.1 _ (lookup_mem _ k le hm0)
      exact resolve_again le r (hdataR r hr) (hbad le hlemem r hr k hlekey hk)
  have hsp := second_pass R mA mA (RelS_refl _ mA) hR hok
  have hfinal : List.Forall₂ (fun p q : MKey × Entity => equpv p.2 q.2)
      (R.foldl mergeStep mA) mA := by
    refine List.Forall₂.imp ?_ hsp
    intro p q ⟨_, h2, _⟩
    exact h2
  rw [hM2]
  show List.Forall₂ equpv ((R.foldl mergeStep mA).map Prod.snd) (mA.map Prod.snd)
  exact forall₂_map_snd _ _ hfinal

/-! ## Claims C1-C4: the conflict resolver -/

set_option maxRecDepth 4000 in
/-- C1 counterexample: `resolve(x, x)` is not `x` — the equal-timestamp pair
falls into the field merge, which bumps `version` from 2 to 3 while leaving
`updatedAt` unchanged. -/
theorem C1_counterexample :
    resolve c1x c1x ≠ c1x ∧ c1x.version = some 2 ∧
      (resolve c1x c1x).version = some 3 ∧
      (resolve c1x c1x).updatedAt = c1x.updatedAt :=
  of_decide_eq_true (by with_unfolding_all rfl)

/-- C1 (amended): for every syncable entity `x` (with distinct field keys,
as every JavaScript object has), `resolve(x, x)` returns `x` with every
field unchanged except `version`, which becomes `(x.version || 0) + 1`;
in particular `updatedAt` is unchanged but the version is never equal to
`x`'s. -/
theorem C1_resolve_self_bumps_version (x : Entity) (hx : dataNodup x) :
    resolve x x = { x with version := some (x.version.getD 0 + 1) } :=
  resolve_self x hx

set_option maxRecDepth 4000 in
/-- C1 witness: the amended statement evaluated at a concrete entity. -/
theorem C1_witness :
    dataNodup c1x ∧ resolve c1x c1x = { c1x with version := some 3 } := by
  refine ⟨by decide, ?_⟩
  rw [C1_resolve_self_bumps_version c1x (by decide)]
  exact of_decide_eq_true (by with_unfolding_all rfl)

set_option maxRecDepth 4000 in
/-- C2 counterexample: merging the same remote list a second time is not a
no-op — the matched identical pair is re-resolved through the field merge,
which bumps its version. -/
theorem C2_counterexample :
    mergeLists (mergeLists [] [c2x]) [c2x] ≠ mergeLists [] [c2x] :=
  of_decide_eq_true (by with_unfolding_all rfl)

/-- C2 (amended): for remote lists with pairwise-distinct keys (and
JavaScript-object field lists), provided no matched pair consists of a live
local entity and a strictly newer soft-deleted remote (the
remote-tombstone-adoption path), applying `mergeLists` a second time with
the same remote input returns the same entities in the same order with
every field unchanged except possibly `version` — so a full-state re-sync
converges only up to version counters, not exactly. -/
theorem C2_second_merge_version_only (L R : List Entity)
    (hR : (R.filterMap jsKey).Nodup)
    (hdataR : ∀ r ∈ R, dataNodup r)
    (hbad : ∀ l ∈ L, ∀ r ∈ R, ∀ k, jsKey l = some k → jsKey r = some k →
      ¬ (delFlag r = true ∧ delFlag l = false ∧ r.updatedAt > l.updatedAt)) :
    List.Forall₂ equpv (mergeLists (mergeLists L R) R) (mergeLists L R) :=
  mergeLists_again L R hR hdataR hbad

/-- C2 witness: the amended statement at a concrete local/remote pair. -/
theorem C2_witness :
    List.Forall₂ equpv (mergeLists (mergeLists [] [c2x]) [c2x])
      (mergeLists [] [c2x]) :=
  C2_second_merge_version_only [] [c2x] (by decide) (by decide)
    (fun l hl => absurd hl (by simp))

set_option maxRecDepth 4000 in
/-- C3 counterexample: a pair that the vector-clock and version stages do
not decide and whose timestamps differ by less than 1000 ms, yet the
result is the remote entity adopted wholesale (remote strictly newer), not
the field merge the claim requires. -/
theorem C3_counterexample :
    delFlag c3l = delFlag c3r ∧ vcUndecided c3l c3r = true ∧
      versionUndecided c3l c3r = true ∧
      |c3r.updatedAt - c3l.updatedAt| < 1000 ∧
      resolve c3l c3r = c3r ∧ resolve c3l c3r ≠ mergeFields c3l c3r :=
  of_decide_eq_true (by with_unfolding_all rfl)

/-- C3 (amended): when the delete guards do not fire, neither the
vector-clock nor the version comparison decides the pair, the remote is
NOT strictly newer, and the timestamps differ by less than 1000 ms, the
result is the field-level merge; a strictly newer remote is adopted
wholesale even within the 1000 ms window. -/
theorem C3_merge_iff_remote_not_newer (l r : Entity)
    (hdel : delFlag l = delFlag r)
    (hvc : vcUndecided l r = true)
    (hver : versionUndecided l r = true)
    (hts : ¬ r.updatedAt > l.updatedAt)
    (hlt : |r.updatedAt - l.updatedAt| < 1000) :
    resolve l r = mergeFields l r := by
  unfold resolve
  have h1 : ¬ ((delFlag l = true) ∧ ¬ (delFlag r = true)) := by
    rw [hdel]; exact fun h => h.2 h.1
  have h2 : ¬ ((delFlag r = true) ∧ ¬ (delFlag l = true)) := by
    rw [hdel]; exact fun h => h.2 h.1
  rw [if_neg h1, if_neg h2]
  have hts' : resolveByTimestamp l r = mergeFields l r := by
    unfold resolveByTimestamp
    rw [if_neg hts, if_pos hlt]
  have hver' : resolveByVersion l r = mergeFields l r := by
    unfold resolveByVersion
    rcases hlv : l.version with _ | lv
    · exact hts'
    · rcases hrv : r.version with _ | rv
      · exact hts'
      · have heq : lv = rv := by simpa [versionUndecided, hlv, hrv] using hver
        subst heq
        simp [hts']
  unfold resolveByClock
  rcases hlc : l.vectorClock with _ | lc
  · exact hver'
  · rcases hrc : r.vectorClock with _ | rc
    · exact hver'
    · have hcmp : compareVectorClocks lc rc = .concurrent := by
        simpa [vcUndecided, hlc, hrc] using hvc
      simp [hcmp, hver']

set_option maxRecDepth 4000 in
/-- C3 witness: the amended statement at a concrete pair where local is the
newer side (timestamps 600 and 0). -/
theorem C3_witness :
    delFlag c3wl = delFlag c3wr ∧ vcUndecided c3wl c3wr = true ∧
      versionUndecided c3wl c3wr = true ∧
      ¬ c3wr.updatedAt > c3wl.updatedAt ∧
      |c3wr.updatedAt - c3wl.updatedAt| < 1000 ∧
      resolve c3wl c3wr = mergeFields c3wl c3wr :=
  ⟨by decide, by decide, by decide,
    of_decide_eq_true (by with_unfolding_all rfl),
    of_decide_eq_true (by with_unfolding_all rfl),
    C3_merge_iff_remote_not_newer c3wl c3wr (by decide) (by decide) (by decide)
      (of_decide_eq_true (by with_unfolding_all rfl))
      (of_decide_eq_true (by with_unfolding_all rfl))⟩

/-- C4: soft-delete asymmetry. When exactly one side carries a tombstone:
if the deleted side is strictly newer the result is deleted, and resolving
that result again against the same remote stays deleted (no resurrection);
if the local side is live and at least as new as the deleted remote, the
live local entity survives unchanged. -/
theorem C4_soft_delete_asymmetry (l r : Entity) :
    (delFlag l = true → delFlag r = false → r.updatedAt < l.updatedAt →
      delFlag (resolve l r) = true ∧ delFlag (resolve (resolve l r) r) = true) ∧
    (delFlag r = true → delFlag l = false → l.updatedAt < r.updatedAt →
      delFlag (resolve l r) = true ∧ delFlag (resolve (resolve l r) r) = true) ∧
    (delFlag r = true → delFlag l = false → r.updatedAt ≤ l.updatedAt →
      resolve l r = l) := by
  refine ⟨?_, ?_, ?_⟩
  · intro h1 h2 h3
    have hres : resolve l r = l := by
      unfold resolve
      rw [if_pos ⟨h1, by simp [h2]⟩, if_neg (not_lt.mpr (le_of_lt h3))]
    exact ⟨by rw [hres]; exact h1, by rw [hres, hres]; exact h1⟩
  · intro h1 h2 h3
    have hres : resolve l r =
        { l with isDeleted := some true, updatedAt := r.updatedAt } := by
      unfold resolve
      rw [if_neg (by simp [h2]), if_pos ⟨h1, by simp [h2]⟩, if_pos h3]
    have hd1 : delFlag (resolve l r) = true := by
      rw [hres]
      rfl
    exact ⟨hd1, resolve_both_deleted _ r hd1 h1⟩
  · intro h1 h2 h3
    unfold resolve
    rw [if_neg (by simp [h2]), if_pos ⟨h1, by simp [h2]⟩, if_neg (not_lt.mpr h3)]

/-- C4 witness: the tombstone case at timestamps 50 (live local) and 100
(deleted remote): deletion is adopted and sticks on a repeated sync. -/
theorem C4_witness :
    delFlag (resolve c4l c4r) = true ∧
      delFlag (resolve (resolve c4l c4r) c4r) = true :=
  (C4_soft_delete_asymmetry c4l c4r).2.1 (by decide) (by decide) (by decide)

/-! ## Claims C8 and C9: exam heuristic and guardian -/

set_option maxRecDepth 4000 in
/-- C8: the failing input made concrete.  A goal whose status is
`postponed` (and no other goal) still makes `examSoon` true, so
`buildWeeklyPlan` derives the boosted effective policy (morningWeight
1.35 boosted to 1.7) although the specification requires the boost to be
triggered only by active (non-postponed) goals — the code's own comment
says "if any active goal deadline is near" but the `some` has no status
filter. -/
theorem C8_postponed_goal_triggers_boost :
    c8goal.status = some GoalStatus.postponed ∧
      examSoon (initGoalStates [c8goal]) DEFAULT_WEEKLY_PLANNER_POLICY 0 = true ∧
      (effectivePolicy DEFAULT_WEEKLY_PLANNER_POLICY
        (examSoon (initGoalStates [c8goal])
          DEFAULT_WEEKLY_PLANNER_POLICY 0)).morningWeight = 1.7 ∧
      DEFAULT_WEEKLY_PLANNER_POLICY.morningWeight = 1.35 :=
  of_decide_eq_true (by with_unfolding_all rfl)

theorem mem_foldr_append {α β : Type} (f : α → List β) (l : List α) (x : α)
    (hx : x ∈ l) (b : β) (hb : b ∈ f x) :
    b ∈ l.foldr (fun a acc => f a ++ acc) [] := by
  induction l with
  | nil => simp at hx
  | cons y rest ih =>
    rcases List.mem_cons.mp hx with h | h
    · subst h
      exact List.mem_append.mpr (Or.inl hb)
    · exact List.mem_append.mpr (Or.inr (ih h))

set_option maxRecDepth 4000 in
/-- C9 counterexample: a goal whose deadline passed one hour ago (deadline
instant 0, now 3_600_000) is non-completed and strictly in the past, yet
`analyzePlan` emits no MISSED_DEADLINE issue for it (it lands in the
EXAM_PROXIMITY branch instead because `Math.ceil` yields 0). -/
theorem C9_counterexample :
    c9goal.deadline = some 0 ∧ c9goal.status ≠ some GoalStatus.completed ∧
      ((0 : ℚ) < 3600000) ∧
      (analyzePlan [] [c9goal] [] 360 3600000).all
        (fun i => i.type ≠ IssueType.MISSED_DEADLINE) = true :=
  of_decide_eq_true (by with_unfolding_all rfl)

/-- C9 (amended): `analyzePlan` emits a critical MISSED_DEADLINE issue for
a non-completed goal with a deadline exactly when
`Math.ceil((deadline - now) / 86_400_000)` is strictly negative, i.e. when
the deadline is at least one full day in the past — not merely strictly in
the past. -/
theorem C9_missed_deadline_after_full_day (plan : List DayPlan)
    (goals : List Goal) (constraints : List Constraint) (cap now : ℚ)
    (g : Goal) (hg : g ∈ goals) (dl : ℚ) (hdl : g.deadline = some dl)
    (hst : g.status ≠ some GoalStatus.completed)
    (hpast : ⌈(dl - now) / (1000 * 60 * 60 * 24)⌉ < 0) :
    ∃ issue ∈ analyzePlan plan goals constraints cap now,
      issue.type = IssueType.MISSED_DEADLINE ∧
      issue.severity = IssueSeverity.critical ∧ issue.relatedGoalId = g.id := by
  have hissue : goalIssues plan now g =
      [{ type := .MISSED_DEADLINE
         severity := .critical
         relatedGoalId := g.id
         fixAction := some .ignore }] := by
    simp [goalIssues, hdl, hpast, hst]
  refine ⟨{ type := .MISSED_DEADLINE
            severity := .critical
            relatedGoalId := g.id
            fixAction := some .ignore }, ?_, rfl, rfl, rfl⟩
  unfold analyzePlan
  refine List.mem_append.mpr (Or.inr ?_)
  refine mem_foldr_append (goalIssues plan now) goals g hg _ ?_
  rw [hissue]
  exact List.mem_singleton.mpr rfl

set_option maxRecDepth 4000 in
/-- C9 witness: a deadline two full days in the past is flagged. -/
theorem C9_witness :
    ∃ issue ∈ analyzePlan [] [c9goal] [] 360 (2 * 86400000),
      issue.type = IssueType.MISSED_DEADLINE ∧
      issue.severity = IssueSeverity.critical ∧
      issue.relatedGoalId = c9goal.id :=
  C9_missed_deadline_after_full_day [] [c9goal] [] 360 (2 * 86400000) c9goal
    (List.mem_singleton.mpr rfl) 0 rfl (by decide)
    (of_decide_eq_true (by with_unfolding_all rfl))

/-! ### Grid-shape preservation (towards C10) -/

theorem length_modIdx {α : Type} (f : α → α) (i : ℕ) (l : List α) :
    (modIdx f i l).length = l.length := by
  induction l generalizing i with
  | nil => cases i <;> rfl
  | cons a as ih =>
    cases i with
    | zero => rfl
    | succ n => simpa [modIdx] using ih n

theorem get?_modIdx_eq {α : Type} (f : α → α) (i : ℕ) (l : List α) :
    (modIdx f i l).get? i = (l.get? i).map f := by
  induction l generalizing i with
  | nil => cases i <;> rfl
  | cons a as ih =>
    cases i with
    | zero => rfl
    | succ n => simpa [modIdx] using ih n

theorem get?_modIdx_ne {α : Type} (f : α → α) (i j : ℕ) (l : List α)
    (h : j ≠ i) : (modIdx f i l).get? j = l.get? j := by
  induction l generalizing i j with
  | nil => cases i <;> rfl
  | cons a as ih =>
    cases i with
    | zero =>
      cases j with
      | zero => exact absurd rfl h
      | succ m => rfl
    | succ n =>
      cases j with
      | zero => rfl
      | succ m => simpa [modIdx] using ih n m (fun hm => h (by rw [hm]))

theorem map_modIdx {α β : Type} (f : α → α) (g : α → β) (i : ℕ) (l : List α)
    (h : ∀ a, g (f a) = g a) : (modIdx f i l).map g = l.map g := by
  induction l generalizing i with
  | nil => cases i <;> rfl
  | cons a as ih =>
    cases i with
    | zero => simp [modIdx, h a]
    | succ n => simp [modIdx, ih n]

theorem foldl_view {α β γ : Type} (step : α → β → α) (view : α → γ)
    (l : List β) (a : α) (h : ∀ a' b, b ∈ l → view (step a' b) = view a') :
    view (l.foldl step a) = view a := by
  induction l generalizing a with
  | nil => rfl
  | cons b rest ih =>
    rw [List.foldl_cons, ih _ (fun a' b' hb' => h a' b' (List.mem_cons_of_mem b hb')),
      h a b (List.mem_cons_self b rest)]

theorem starts_setSlot (days : List DayPlan) (d s : ℕ) (f : Slot → Slot)
    (hf : ∀ sl, (f sl).startMinutes = sl.startMinutes) :
    (setSlot days d s f).map dayStarts = days.map dayStarts := by
  unfold setSlot
  refine map_modIdx _ dayStarts d days ?_
  intro day
  unfold dayStarts
  exact map_modIdx f Slot.startMinutes s day.slots hf

theorem starts_scenarioB (title : String) (s : ℕ) (acc : List DayPlan × ℤ) :
    (constraintScenarioB title s acc).1.map dayStarts = acc.1.map dayStarts := by
  unfold constraintScenarioB
  refine foldl_view _ (fun acc2 => acc2.1.map dayStarts) _ acc ?_
  intro acc2 d _
  by_cases h0 : acc2.2 ≤ 0
  · rw [if_pos h0]
  · rw [if_neg h0]
    rcases hsl : getSlot? acc2.1 d s with _ | sl
    · rfl
    · dsimp only
      by_cases hfree : sl.type = SlotType.free
      · rw [if_pos hfree]
        exact starts_setSlot _ d s _ (fun t => rfl)
      · rw [if_neg hfree]

theorem starts_applyConstraint (days : List DayPlan) (c : Constraint) :
    (applyConstraint days c).map dayStarts = days.map dayStarts := by
  unfold applyConstraint
  refine foldl_view _ (fun acc : List DayPlan × ℤ => acc.1.map dayStarts) _ _ ?_
  intro acc s _
  by_cases h0 : acc.2 ≤ 0
  · rw [if_pos h0]
  · rw [if_neg h0]
    by_cases htdi : indexOfDay c.day ≠ -1
    · rw [if_pos htdi]
      rcases hsl : getSlot? acc.1 (indexOfDay c.day).toNat s with _ | sl
      · rfl
      · dsimp only
        by_cases hfree : sl.type = SlotType.free
        · rw [if_pos hfree]
          exact starts_setSlot _ _ s _ (fun t => rfl)
        · rw [if_neg hfree]
          exact starts_setSlot _ _ s _ (fun t => rfl)
    · rw [if_neg htdi]
      exact starts_scenarioB c.title s acc

theorem starts_placeConstraints (days : List DayPlan) (cs : List Constraint) :
    (placeConstraints days cs).map dayStarts = days.map dayStarts := by
  unfold placeConstraints
  exact foldl_view _ _ cs days (fun a c _ => starts_applyConstraint a c)

theorem starts_scanGo (ep : WeeklyPlannerPolicy) (rem : ℚ) (used : ℕ)
    (maxPer : ℤ) (idxs : List ℕ) :
    ∀ (slots : List Slot) (best : BestAcc),
    (scanGo ep rem used maxPer idxs slots best).1.map Slot.startMinutes =
      slots.map Slot.startMinutes := by
  induction idxs with
  | nil => intro slots best; rfl
  | cons s rest ih =>
    intro slots best
    unfold scanGo
    rcases hsl : slots.get? s with _ | sl
    · exact ih slots best
    · dsimp only
      by_cases hfree : sl.type ≠ SlotType.free
      · rw [if_pos hfree]
        by_cases hrat : sl.rationale = none
        · rw [if_pos hrat, ih]
          exact map_modIdx _ _ s slots (fun t => rfl)
        · rw [if_neg hrat]
          exact ih slots best
      · rw [if_neg hfree]
        by_cases hused : (used : ℤ) ≥ maxPer
        · rw [if_pos hused]
          by_cases hrat : sl.rationale = none
          · rw [if_pos hrat]
            exact map_modIdx _ _ s slots (fun t => rfl)
          · rw [if_neg hrat]
        · rw [if_neg hused]
          split_ifs <;> first
            | exact ih slots best
            | exact ih slots _

theorem starts_placeBlock (slots : List Slot) (start len : ℕ) (title : String)
    (priority : Priority) :
    (placeBlock slots start len title priority).map Slot.startMinutes =
      slots.map Slot.startMinutes := by
  unfold placeBlock
  refine foldl_view _ (fun acc => acc.map Slot.startMinutes) _ slots ?_
  intro acc i _
  exact map_modIdx _ _ _ acc (fun t => rfl)

theorem starts_writeBlockRationale (slots : List Slot) (start len : ℕ)
    (rule : SchedulerRule) :
    (writeBlockRationale slots start len rule).map Slot.startMinutes =
      slots.map Slot.startMinutes := by
  unfold writeBlockRationale
  refine foldl_view _ (fun acc => acc.map Slot.startMinutes) _ slots ?_
  intro acc i _
  exact map_modIdx _ _ _ acc (fun t => rfl)

theorem starts_markPostponed (slots : List Slot) :
    (markPostponed slots).map Slot.startMinutes = slots.map Slot.startMinutes := by
  unfold markPostponed
  rw [List.map_map]
  refine List.map_congr_left ?_
  intro sl _
  by_cases h : sl.type = SlotType.free ∧ sl.rationale = none
  · simp [h]
  · simp [h]

theorem starts_dayLoop (ep : WeeklyPlannerPolicy) (maxPer : ℤ) (fuel : ℕ) :
    ∀ (gs : List GoalState) (cursor : ℕ) (slots : List Slot) (used : ℕ),
    (dayLoop ep maxPer fuel gs cursor slots used).2.2.map Slot.startMinutes =
      slots.map Slot.startMinutes := by
  induction fuel with
  | zero => intro gs cursor slots used; rfl
  | succ n ih =>
    intro gs cursor slots used
    unfold dayLoop
    by_cases h1 : ¬ ((used : ℤ) < maxPer)
    · rw [if_pos h1]
    · rw [if_neg h1]
      by_cases h2 : ¬ anyEligible gs = true
      · rw [if_pos h2]
      · rw [if_neg h2]
        by_cases h3 : ineligible gs (findCursor gs cursor 0) = true
        · rw [if_pos h3]
          by_cases h4 : (gsAt gs (findCursor gs cursor 0)).status =
              some GoalStatus.postponed
          · rw [if_pos h4]
            exact starts_markPostponed slots
          · rw [if_neg h4]
        · rw [if_neg h3]
          dsimp only
          rcases hscan : scanGo ep (gsAt gs (findCursor gs cursor 0)).remainingMinutes
              used maxPer (List.range slots.length) slots
              { start := none, len := 0, score := none, bucket := none }
            with ⟨slots1, best⟩
          have hs1 : slots1.map Slot.startMinutes = slots.map Slot.startMinutes := by
            have hsg := starts_scanGo ep
              (gsAt gs (findCursor gs cursor 0)).remainingMinutes
              used maxPer (List.range slots.length) slots
              { start := none, len := 0, score := none, bucket := none }
            rw [hscan] at hsg
            exact hsg
          dsimp only
          rcases hbs : best.start with _ | bs
          · exact hs1
          · dsimp only
            by_cases hlen : best.len = 0
            · rw [if_pos hlen]
              exact hs1
            · rw [if_neg hlen]
              rw [ih, starts_placeBlock, starts_writeBlockRationale, hs1]

theorem starts_placeGoalsGo (ep : WeeklyPlannerPolicy) (maxPer : ℤ) :
    ∀ (days : List DayPlan) (gs : List GoalState) (cursor : ℕ),
    (placeGoalsGo ep maxPer days gs cursor).map dayStarts = days.map dayStarts := by
  intro days
  induction days with
  | nil => intro gs cursor; rfl
  | cons day rest ih =>
    intro gs cursor
    unfold placeGoalsGo
    dsimp only
    rw [List.map_cons, List.map_cons, ih]
    congr 1
    unfold dayStarts
    exact starts_dayLoop ep maxPer (dayFuel maxPer) gs cursor day.slots 0

theorem starts_placeGoals (ep : WeeklyPlannerPolicy) (maxPer : ℤ)
    (days : List DayPlan) (gs0 : List GoalState) :
    (placeGoals ep maxPer days gs0).map dayStarts = days.map dayStarts :=
  starts_placeGoalsGo ep maxPer days gs0 0

theorem starts_markExamRationale (days : List DayPlan) :
    (markExamRationale days).map dayStarts = days.map dayStarts := by
  unfold markExamRationale
  rw [List.map_map]
  refine List.map_congr_left ?_
  intro day _
  show dayStarts { day with slots := _ } = dayStarts day
  unfold dayStarts
  rw [List.map_map]
  refine List.map_congr_left ?_
  intro sl _
  by_cases h : sl.type = SlotType.free ∧ sl.rationale = none
  · simp [h]
  · simp [h]

theorem starts_buildWeeklyPlan (goals : List Goal) (constraints : List Constraint)
    (policy : WeeklyPlannerPolicy) (now : ℚ) :
    (buildWeeklyPlan goals constraints policy now).map dayStarts =
      initDays.map dayStarts := by
  unfold buildWeeklyPlan
  by_cases h0 : (initGoalStates goals).length = 0
  · rw [if_pos h0]
    exact starts_placeConstraints initDays constraints
  · rw [if_neg h0]
    rw [starts_placeGoals]
    by_cases hsoon : examSoon (initGoalStates goals) policy now = true
    · rw [if_pos hsoon, starts_markExamRationale]
      exact starts_placeConstraints initDays constraints
    · rw [if_neg hsoon]
      exact starts_placeConstraints initDays constraints

set_option maxRecDepth 4000 in
theorem starts_initDays :
    initDays.map dayStarts =
      List.replicate 7 ((List.range 26).map fun i => ((540 + 30 * i : ℕ) : ℚ)) :=
  of_decide_eq_true (by with_unfolding_all rfl)

/-- C10: for every input, `buildWeeklyPlan` returns exactly 7 day plans of
exactly 26 slots whose start minutes are 540, 570, ..., 1290 — the fixed
09:00-22:00 grid of 30-minute slots; in particular no policy field
(including `slotMinutes`) affects the grid's shape or start times. -/
theorem C10_fixed_grid (goals : List Goal) (constraints : List Constraint)
    (policy : WeeklyPlannerPolicy) (now : ℚ) :
    (buildWeeklyPlan goals constraints policy now).length = 7 ∧
    ∀ day ∈ buildWeeklyPlan goals constraints policy now,
      day.slots.map Slot.startMinutes =
        (List.range 26).map fun i => ((540 + 30 * i : ℕ) : ℚ) := by
  have hview := starts_buildWeeklyPlan goals constraints policy now
  rw [starts_initDays] at hview
  constructor
  · have := congrArg List.length hview
    simpa using this
  · intro day hday
    have hmem : dayStarts day ∈
        List.replicate 7 ((List.range 26).map fun i => ((540 + 30 * i : ℕ) : ℚ)) := by
      rw [← hview]
      exact List.mem_map_of_mem dayStarts hday
    exact List.eq_of_mem_replicate hmem

set_option maxRecDepth 4000 in
/-- C10 witness: the grid shape at the empty input, checked on the first
returned day. -/
theorem C10_witness :
    (buildWeeklyPlan [] [] DEFAULT_WEEKLY_PLANNER_POLICY 0).length = 7 ∧
    c10day.slots.map Slot.startMinutes =
      (List.range 26).map (fun i => ((540 + 30 * i : ℕ) : ℚ)) := by
  refine ⟨(C10_fixed_grid [] [] DEFAULT_WEEKLY_PLANNER_POLICY 0).1, ?_⟩
  refine (C10_fixed_grid [] [] DEFAULT_WEEKLY_PLANNER_POLICY 0).2 c10day ?_
  exact of_decide_eq_true (by with_unfolding_all rfl)


/-! ### Slot-view machinery for the scheduler claims -/

theorem get?_map_view {α β : Type} (v : α → β) (l l' : List α)
    (h : l'.map v = l.map v) (j : ℕ) :
    (l'.get? j).map v = (l.get? j).map v := by
  rw [← List.get?_map, ← List.get?_map, h]

theorem tl_fields (sl sl' : Slot) (h : tl sl' = tl sl) :
    sl'.type = sl.type ∧ sl'.label = sl.label :=
  ⟨congrArg Prod.fst h, congrArg Prod.snd h⟩

theorem freeAt_congr (slots slots' : List Slot)
    (h : slots'.map tl = slots.map tl) (j : ℕ) :
    freeAt slots' j = freeAt slots j := by
  have hj := get?_map_view tl slots slots' h j
  unfold freeAt
  rcases h1 : slots.get? j with _ | sl
  · rcases h2 : slots'.get? j with _ | sl'
    · rfl
    · rw [h1, h2] at hj
      simp at hj
  · rcases h2 : slots'.get? j with _ | sl'
    · rw [h1, h2] at hj
      simp at hj
    · rw [h1, h2] at hj
      simp only [Option.map_some'] at hj
      show decide (sl'.type = SlotType.free) = decide (sl.type = SlotType.free)
      rw [(tl_fields sl sl' (by injection hj)).1]

theorem isContiguousFree_eq_all (slots : List Slot) (s len : ℕ) :
    isContiguousFree slots s len =
      (List.range len).all fun i => freeAt slots (s + i) := rfl

theorem isContiguousFree_congr (slots slots' : List Slot)
    (h : slots'.map tl = slots.map tl) (s len : ℕ) :
    isContiguousFree slots' s len = isContiguousFree slots s len := by
  rw [isContiguousFree_eq_all, isContiguousFree_eq_all]
  exact congrArg (List.range len).all
    (funext fun i => freeAt_congr slots slots' h (s + i))

theorem isContiguousFree_free (slots : List Slot) (start len : ℕ)
    (h : isContiguousFree slots start len = true) (j : ℕ)
    (hj1 : start ≤ j) (hj2 : j < start + len) :
    ∃ sl, slots.get? j = some sl ∧ sl.type = SlotType.free := by
  rw [isContiguousFree_eq_all] at h
  have hi := List.all_eq_true.mp h (j - start) (List.mem_range.mpr (by omega))
  have hje : start + (j - start) = j := by omega
  rw [hje] at hi
  unfold freeAt at hi
  rcases hg : slots.get? j with _ | sl
  · rw [hg] at hi; simp at hi
  · rw [hg] at hi
    simp at hi
    exact ⟨sl, rfl, hi⟩

theorem isContiguousFree_mono (slots : List Slot) (start : ℕ) (len len' : ℕ)
    (hle : len' ≤ len) (h : isContiguousFree slots start len = true) :
    isContiguousFree slots start len' = true := by
  rw [isContiguousFree_eq_all] at h ⊢
  refine List.all_eq_true.mpr ?_
  intro i hi
  exact List.all_eq_true.mp h i
    (List.mem_range.mpr (lt_of_lt_of_le (List.mem_range.mp hi) hle))

theorem countP_modIdx_flip {α : Type} (p : α → Bool) (f : α → α) :
    ∀ (i : ℕ) (l : List α) (x : α), l.get? i = some x →
    p x = false → p (f x) = true →
    (modIdx f i l).countP p = l.countP p + 1 := by
  intro i l
  induction l generalizing i with
  | nil => intro x hx _ _; cases i <;> simp at hx
  | cons a as ih =>
    intro x hx hpx hpfx
    cases i with
    | zero =>
      simp only [List.get?] at hx
      injection hx with hx
      subst hx
      simp [modIdx, List.countP_cons, hpx, hpfx]
    | succ n =>
      simp only [List.get?] at hx
      simp [modIdx, List.countP_cons, ih n x hx hpx hpfx]
      omega

theorem countP_modIdx_keep2 {α : Type} (p : α → Bool) (f : α → α) :
    ∀ (i : ℕ) (l : List α) (x : α), l.get? i = some x →
    p (f x) = p x →
    (modIdx f i l).countP p = l.countP p := by
  intro i l
  induction l generalizing i with
  | nil => intro x hx _; cases i <;> simp at hx
  | cons a as ih =>
    intro x hx hpfx
    cases i with
    | zero =>
      simp only [List.get?] at hx
      injection hx with hx
      subst hx
      simp [modIdx, List.countP_cons, hpfx]
    | succ n =>
      simp only [List.get?] at hx
      simp [modIdx, List.countP_cons, ih n x hx hpfx]

theorem labelStudy_eq_countP (t : String) (slots : List Slot) :
    labelStudy t slots =
      slots.countP fun sl => decide (sl.type = SlotType.study ∧ sl.label = some t) :=
  (List.countP_eq_length_filter _ _).symm

theorem studyCount_eq_countP (slots : List Slot) :
    studyCount slots = slots.countP fun sl => decide (sl.type = SlotType.study) :=
  (List.countP_eq_length_filter _ _).symm

theorem labelStudy_congr (slots slots' : List Slot)
    (h : slots'.map tl = slots.map tl) (t : String) :
    labelStudy t slots' = labelStudy t slots := by
  rw [labelStudy_eq_countP, labelStudy_eq_countP]
  have h2 : (slots'.map tl).countP
      (fun v => decide (v.1 = SlotType.study ∧ v.2 = some t)) =
      (slots.map tl).countP
      (fun v => decide (v.1 = SlotType.study ∧ v.2 = some t)) := by rw [h]
  rw [List.countP_map, List.countP_map] at h2
  exact h2

theorem studyCount_congr (slots slots' : List Slot)
    (h : slots'.map tl = slots.map tl) :
    studyCount slots' = studyCount slots := by
  rw [studyCount_eq_countP, studyCount_eq_countP]
  have h2 : (slots'.map tl).countP (fun v => decide (v.1 = SlotType.study)) =
      (slots.map tl).countP (fun v => decide (v.1 = SlotType.study)) := by rw [h]
  rw [List.countP_map, List.countP_map] at h2
  exact h2

theorem tl_scanGo (ep : WeeklyPlannerPolicy) (rem : ℚ) (used : ℕ)
    (maxPer : ℤ) (idxs : List ℕ) :
    ∀ (slots : List Slot) (best : BestAcc),
    (scanGo ep rem used maxPer idxs slots best).1.map tl = slots.map tl := by
  induction idxs with
  | nil => intro slots best; rfl
  | cons s rest ih =>
    intro slots best
    unfold scanGo
    rcases hsl : slots.get? s with _ | sl
    · exact ih slots best
    · dsimp only
      by_cases hfree : sl.type ≠ SlotType.free
      · rw [if_pos hfree]
        by_cases hrat : sl.rationale = none
        · rw [if_pos hrat, ih]
          exact map_modIdx _ _ s slots (fun t => rfl)
        · rw [if_neg hrat]
          exact ih slots best
      · rw [if_neg hfree]
        by_cases hused : (used : ℤ) ≥ maxPer
        · rw [if_pos hused]
          by_cases hrat : sl.rationale = none
          · rw [if_pos hrat]
            exact map_modIdx _ _ s slots (fun t => rfl)
          · rw [if_neg hrat]
        · rw [if_neg hused]
          split_ifs <;> first
            | exact ih slots best
            | exact ih slots _

theorem tl_writeBlockRationale (slots : List Slot) (start len : ℕ)
    (rule : SchedulerRule) :
    (writeBlockRationale slots start len rule).map tl = slots.map tl := by
  unfold writeBlockRationale
  refine foldl_view _ (fun acc => acc.map tl) _ slots ?_
  intro acc i _
  exact map_modIdx _ _ _ acc (fun t => rfl)

theorem tl_markPostponed (slots : List Slot) :
    (markPostponed slots).map tl = slots.map tl := by
  unfold markPostponed
  rw [List.map_map]
  refine List.map_congr_left ?_
  intro sl _
  by_cases h : sl.type = SlotType.free ∧ sl.rationale = none
  · simp [h, tl]
  · simp [h]

theorem placeBlock_zero (slots : List Slot) (start : ℕ) (t : String)
    (p : Priority) : placeBlock slots start 0 t p = slots := by
  unfold placeBlock
  rw [List.range_zero]
  rfl

theorem placeBlock_succ (slots : List Slot) (start len : ℕ) (t : String)
    (p : Priority) :
    placeBlock slots start (len + 1) t p =
      modIdx
        (fun sl => { sl with
          type := SlotType.study
          label := some t
          priority := some p })
        (start + len) (placeBlock slots start len t p) := by
  unfold placeBlock
  rw [List.range_succ, List.foldl_append]
  rfl

theorem get?_placeBlock_out (slots : List Slot) (start : ℕ) (t : String)
    (p : Priority) : ∀ (len : ℕ) (j : ℕ), j < start ∨ start + len ≤ j →
    (placeBlock slots start len t p).get? j = slots.get? j := by
  intro len
  induction len with
  | zero => intro j _; rw [placeBlock_zero]
  | succ n ih =>
    intro j hj
    rw [placeBlock_succ]
    rw [get?_modIdx_ne _ (start + n) j _ (by omega)]
    exact ih j (by omega)

theorem get?_placeBlock_in (slots : List Slot) (start : ℕ) (t : String)
    (p : Priority) : ∀ (len i : ℕ), i < len →
    (placeBlock slots start len t p).get? (start + i) =
      (slots.get? (start + i)).map fun sl =>
        { sl with
          type := SlotType.study
          label := some t
          priority := some p } := by
  intro len
  induction len with
  | zero => intro i hi; exact absurd hi (Nat.not_lt_zero i)
  | succ n ih =>
    intro i hi
    rw [placeBlock_succ]
    by_cases h : i = n
    · subst h
      rw [get?_modIdx_eq]
      rw [get?_placeBlock_out slots start t p i (start + i) (by omega)]
    · rw [get?_modIdx_ne _ (start + n) (start + i) _ (by omega)]
      exact ih i (by omega)

theorem studyCount_placeBlock (slots : List Slot) (start : ℕ) (t : String)
    (p : Priority) : ∀ (len : ℕ), isContiguousFree slots start len = true →
    studyCount (placeBlock slots start len t p) = studyCount slots + len := by
  intro len
  induction len with
  | zero => intro _; rw [placeBlock_zero]; omega
  | succ n ih =>
    intro h
    obtain ⟨sl, hsl, hfree⟩ :=
      isContiguousFree_free slots start (n + 1) h (start + n) (by omega) (by omega)
    have hget : (placeBlock slots start n t p).get? (start + n) = some sl := by
      rw [get?_placeBlock_out slots start t p n (start + n) (by omega)]
      exact hsl
    have hpx : decide (sl.type = SlotType.study) = false := by
      simp [hfree]
    have hpfx : decide ((({ sl with
        type := SlotType.study
        label := some t
        priority := some p }) : Slot).type = SlotType.study) = true := by simp
    rw [placeBlock_succ, studyCount_eq_countP,
      countP_modIdx_flip _ _ (start + n) _ sl hget hpx hpfx,
      ← studyCount_eq_countP,
      ih (isContiguousFree_mono slots start (n + 1) n (by omega) h)]
    omega

theorem labelStudy_placeBlock (slots : List Slot) (start : ℕ) (t t' : String)
    (p : Priority) : ∀ (len : ℕ), isContiguousFree slots start len = true →
    labelStudy t (placeBlock slots start len t' p) =
      labelStudy t slots + (if t = t' then len else 0) := by
  intro len
  induction len with
  | zero => intro _; rw [placeBlock_zero]; simp
  | succ n ih =>
    intro h
    obtain ⟨sl, hsl, hfree⟩ :=
      isContiguousFree_free slots start (n + 1) h (start + n) (by omega) (by omega)
    have hget : (placeBlock slots start n t' p).get? (start + n) = some sl := by
      rw [get?_placeBlock_out slots start t' p n (start + n) (by omega)]
      exact hsl
    have hpx : decide (sl.type = SlotType.study ∧ sl.label = some t) = false := by
      simp [hfree]
    have hprev := ih (isContiguousFree_mono slots start (n + 1) n (by omega) h)
    by_cases hT : t = t'
    · subst hT
      have hpfx : decide ((({ sl with
          type := SlotType.study
          label := some t
          priority := some p }) : Slot).type = SlotType.study ∧
          (({ sl with
            type := SlotType.study
            label := some t
            priority := some p }) : Slot).label = some t) = true := by simp
      rw [placeBlock_succ, labelStudy_eq_countP,
        countP_modIdx_flip _ _ (start + n) _ sl hget hpx hpfx,
        ← labelStudy_eq_countP, hprev]
      simp
      omega
    · have hpfx : decide ((({ sl with
          type := SlotType.study
          label := some t'
          priority := some p }) : Slot).type = SlotType.study ∧
          (({ sl with
            type := SlotType.study
            label := some t'
            priority := some p }) : Slot).label = some t) = false := by
        simp
        exact fun hsome => hT hsome.symm
      rw [placeBlock_succ, labelStudy_eq_countP,
        countP_modIdx_keep2 _ _ (start + n) _ sl hget (hpfx.trans hpx.symm),
        ← labelStudy_eq_countP, hprev]
      simp [hT]

theorem foldl_inv {α β : Type} (P : α → Prop) (step : α → β → α) :
    ∀ (l : List β) (a : α), P a → (∀ a' b, b ∈ l → P a' → P (step a' b)) →
    P (l.foldl step a) := by
  intro l
  induction l with
  | nil => intro a ha _; exact ha
  | cons b rest ih =>
    intro a ha h
    exact ih _ (h a b (List.mem_cons_self b rest) ha)
      (fun a' b' hb' => h a' b' (List.mem_cons_of_mem b hb'))

/-! ### Soundness of the candidate scan -/

theorem accOk_congr (slots slots' : List Slot) (rem : ℚ) (used : ℕ)
    (maxPer : ℤ) (best : BestAcc) (h : slots'.map tl = slots.map tl)
    (ha : accOk slots rem used maxPer best) :
    accOk slots' rem used maxPer best := by
  intro b hb
  obtain ⟨h1, h2, h3, h4⟩ := ha b hb
  refine ⟨h1, ?_, h3, h4⟩
  rw [isContiguousFree_congr slots slots' h]
  exact h2

theorem scanGo_sound (ep : WeeklyPlannerPolicy) (rem : ℚ) (used : ℕ)
    (maxPer : ℤ) (idxs : List ℕ) :
    ∀ (slots : List Slot) (best : BestAcc),
    accOk slots rem used maxPer best →
    accOk (scanGo ep rem used maxPer idxs slots best).1 rem used maxPer
      (scanGo ep rem used maxPer idxs slots best).2 := by
  induction idxs with
  | nil => intro slots best hb; exact hb
  | cons s rest ih =>
    intro slots best hb
    unfold scanGo
    rcases hsl : slots.get? s with _ | sl
    · exact ih slots best hb
    · dsimp only
      by_cases hfree : sl.type ≠ SlotType.free
      · rw [if_pos hfree]
        by_cases hrat : sl.rationale = none
        · rw [if_pos hrat]
          exact ih _ best (accOk_congr slots _ rem used maxPer best
            (map_modIdx _ _ s slots (fun t => rfl)) hb)
        · rw [if_neg hrat]
          exact ih slots best hb
      · rw [if_neg hfree]
        by_cases hused : (used : ℤ) ≥ maxPer
        · rw [if_pos hused]
          by_cases hrat : sl.rationale = none
          · rw [if_pos hrat]
            exact accOk_congr slots _ rem used maxPer best
              (map_modIdx _ _ s slots (fun t => rfl)) hb
          · rw [if_neg hrat]
            exact hb
        · rw [if_neg hused]
          split_ifs with h1 h2 h3
          all_goals try exact ih slots best hb
          refine ih slots _ ?_
          intro b hb'
          replace hb' : some s = some b := hb'
          injection hb' with hb'
          subst hb'
          refine ⟨?_, ?_, ?_, ?_⟩
          · show 1 ≤ Int.toNat _
            omega
          · show isContiguousFree slots s (Int.toNat _) = true
            exact h2
          · show (Int.toNat _ : ℤ) ≤ _
            omega
          · show (_ : ℤ) + (Int.toNat _ : ℤ) ≤ _
            omega

/-! ### Goal-state bookkeeping through the day loop -/

theorem jsOrQ_zero (q : ℚ) : jsOrQ q 0 = q := by
  unfold jsOrQ
  split_ifs with h
  · exact h.symm
  · rfl

theorem maxStudy_effectivePolicy (p : WeeklyPlannerPolicy) (b : Bool) :
    (effectivePolicy p b).maxStudyMinutesPerDay = p.maxStudyMinutesPerDay := by
  unfold effectivePolicy
  split_ifs <;> rfl

theorem gsAt_lt (gs : List GoalState) (i : ℕ) (hi : i < gs.length) :
    gs.get? i = some (gsAt gs i) := by
  unfold gsAt
  rw [List.get?_eq_get hi]
  rfl

theorem ineligible_oob (gs : List GoalState) (c : ℕ) (hc : gs.length ≤ c) :
    ineligible gs c = true := by
  unfold ineligible gsAt
  rw [List.get?_eq_none.mpr hc]
  with_unfolding_all rfl

theorem gsAt_updRem_title (gs : List GoalState) (i : ℕ) (δ : ℚ) (j : ℕ) :
    (gsAt (updRem gs i δ) j).title = (gsAt gs j).title ∧
    (gsAt (updRem gs i δ) j).status = (gsAt gs j).status := by
  unfold gsAt updRem
  by_cases h : j = i
  · subst h
    rw [get?_modIdx_eq]
    rcases gs.get? j with _ | g
    · exact ⟨rfl, rfl⟩
    · exact ⟨rfl, rfl⟩
  · rw [get?_modIdx_ne _ i j _ h]
    exact ⟨rfl, rfl⟩

theorem gsAt_updRem_eq (gs : List GoalState) (i : ℕ) (δ : ℚ)
    (hi : i < gs.length) :
    (gsAt (updRem gs i δ) i).remainingMinutes =
      (gsAt gs i).remainingMinutes - δ := by
  unfold gsAt updRem
  rw [get?_modIdx_eq, List.get?_eq_get hi]
  rfl

theorem gsAt_updRem_ne (gs : List GoalState) (i : ℕ) (δ : ℚ) (j : ℕ)
    (h : j ≠ i) : gsAt (updRem gs i δ) j = gsAt gs j := by
  unfold gsAt updRem
  rw [get?_modIdx_ne _ i j _ h]

theorem length_updRem (gs : List GoalState) (i : ℕ) (δ : ℚ) :
    (updRem gs i δ).length = gs.length := length_modIdx _ i gs

theorem map_title_updRem (gs : List GoalState) (i : ℕ) (δ : ℚ) :
    (updRem gs i δ).map GoalState.title = gs.map GoalState.title :=
  map_modIdx _ _ i gs (fun g => rfl)

theorem gsAt_title_ne (gs : List GoalState)
    (hnd : (gs.map GoalState.title).Nodup) (i j : ℕ) (hi : i < gs.length)
    (hj : j < gs.length) (hij : i ≠ j) :
    (gsAt gs i).title ≠ (gsAt gs j).title := by
  intro heq
  apply hij
  refine List.get?_inj (by simpa using hi) hnd ?_
  rw [List.get?_map, List.get?_map, gsAt_lt gs i hi, gsAt_lt gs j hj]
  simp [heq]

theorem gs_dayLoop (ep : WeeklyPlannerPolicy) (maxPer : ℤ) (fuel : ℕ) :
    ∀ (gs : List GoalState) (cursor : ℕ) (slots : List Slot) (used : ℕ),
    (dayLoop ep maxPer fuel gs cursor slots used).1.map
        (fun g => (g.title, g.status)) =
      gs.map fun g => (g.title, g.status) := by
  induction fuel with
  | zero => intro gs cursor slots used; rfl
  | succ n ih =>
    intro gs cursor slots used
    unfold dayLoop
    by_cases h1 : ¬ ((used : ℤ) < maxPer)
    · rw [if_pos h1]
    · rw [if_neg h1]
      by_cases h2 : ¬ anyEligible gs = true
      · rw [if_pos h2]
      · rw [if_neg h2]
        by_cases h3 : ineligible gs (findCursor gs cursor 0) = true
        · rw [if_pos h3]
        · rw [if_neg h3]
          dsimp only
          rcases hscan : scanGo ep
              (gsAt gs (findCursor gs cursor 0)).remainingMinutes
              used maxPer (List.range slots.length) slots
              { start := none, len := 0, score := none, bucket := none }
            with ⟨slots1, best⟩
          dsimp only
          rcases hbs : best.start with _ | bs
          · rfl
          · dsimp only
            by_cases hlen : best.len = 0
            · rw [if_pos hlen]
            · rw [if_neg hlen]
              rw [ih]
              exact map_modIdx _ _ _ gs (fun g => rfl)

theorem length_gs_dayLoop (ep : WeeklyPlannerPolicy) (maxPer : ℤ) (fuel : ℕ)
    (gs : List GoalState) (cursor : ℕ) (slots : List Slot) (used : ℕ) :
    (dayLoop ep maxPer fuel gs cursor slots used).1.length = gs.length := by
  have h := congrArg List.length (gs_dayLoop ep maxPer fuel gs cursor slots used)
  simpa using h

theorem map_title_dayLoop (ep : WeeklyPlannerPolicy) (maxPer : ℤ) (fuel : ℕ)
    (gs : List GoalState) (cursor : ℕ) (slots : List Slot) (used : ℕ) :
    (dayLoop ep maxPer fuel gs cursor slots used).1.map GoalState.title =
      gs.map GoalState.title := by
  have h2 := congrArg (List.map Prod.fst)
    (gs_dayLoop ep maxPer fuel gs cursor slots used)
  rw [List.map_map, List.map_map] at h2
  exact h2

theorem gsAt_dayLoop_pair (ep : WeeklyPlannerPolicy) (maxPer : ℤ) (fuel : ℕ)
    (gs : List GoalState) (cursor : ℕ) (slots : List Slot) (used : ℕ) (i : ℕ)
    (hi : i < gs.length) :
    (gsAt (dayLoop ep maxPer fuel gs cursor slots used).1 i).title =
        (gsAt gs i).title ∧
      (gsAt (dayLoop ep maxPer fuel gs cursor slots used).1 i).status =
        (gsAt gs i).status := by
  have h := gs_dayLoop ep maxPer fuel gs cursor slots used
  have hv := get?_map_view (fun g => (g.title, g.status)) gs _ h i
  rw [gsAt_lt gs i hi] at hv
  rcases hx : (dayLoop ep maxPer fuel gs cursor slots used).1.get? i with _ | x
  · rw [hx] at hv
    simp at hv
  · rw [hx] at hv
    simp at hv
    have hout : gsAt (dayLoop ep maxPer fuel gs cursor slots used).1 i = x := by
      unfold gsAt
      rw [hx]
      rfl
    rw [hout]
    exact hv

/-! ### Non-free slots survive the day loop unchanged -/

theorem get?_tl_of_eq (slots slots' : List Slot)
    (h : slots'.map tl = slots.map tl) (j : ℕ) (sl : Slot)
    (hj : slots.get? j = some sl) :
    (slots'.get? j).map tl = some (tl sl) := by
  rw [get?_map_view tl slots slots' h j, hj]
  rfl

theorem tl_dayLoop (ep : WeeklyPlannerPolicy) (maxPer : ℤ) : ∀ (fuel : ℕ)
    (gs : List GoalState) (cursor : ℕ) (slots : List Slot) (used : ℕ)
    (j : ℕ) (sl : Slot), slots.get? j = some sl → sl.type ≠ SlotType.free →
    ((dayLoop ep maxPer fuel gs cursor slots used).2.2.get? j).map tl =
      some (tl sl) := by
  intro fuel
  induction fuel with
  | zero =>
    intro gs cursor slots used j sl hj hnf
    show (slots.get? j).map tl = some (tl sl)
    rw [hj]
    rfl
  | succ n ih =>
    intro gs cursor slots used j sl hj hnf
    unfold dayLoop
    by_cases h1 : ¬ ((used : ℤ) < maxPer)
    · rw [if_pos h1]
      show (slots.get? j).map tl = some (tl sl)
      rw [hj]
      rfl
    · rw [if_neg h1]
      by_cases h2 : ¬ anyEligible gs = true
      · rw [if_pos h2]
        show (slots.get? j).map tl = some (tl sl)
        rw [hj]
        rfl
      · rw [if_neg h2]
        by_cases h3 : ineligible gs (findCursor gs cursor 0) = true
        · rw [if_pos h3]
          by_cases h4 : (gsAt gs (findCursor gs cursor 0)).status =
              some GoalStatus.postponed
          · rw [if_pos h4]
            exact get?_tl_of_eq slots (markPostponed slots)
              (tl_markPostponed slots) j sl hj
          · rw [if_neg h4]
            show (slots.get? j).map tl = some (tl sl)
            rw [hj]
            rfl
        · rw [if_neg h3]
          dsimp only
          rcases hscan : scanGo ep
              (gsAt gs (findCursor gs cursor 0)).remainingMinutes
              used maxPer (List.range slots.length) slots
              { start := none, len := 0, score := none, bucket := none }
            with ⟨slots1, best⟩
          have htl1 : slots1.map tl = slots.map tl := by
            have h := tl_scanGo ep
              (gsAt gs (findCursor gs cursor 0)).remainingMinutes
              used maxPer (List.range slots.length) slots
              { start := none, len := 0, score := none, bucket := none }
            rw [hscan] at h
            exact h
          dsimp only
          rcases hbs : best.start with _ | bs
          · exact get?_tl_of_eq slots slots1 htl1 j sl hj
          · dsimp only
            by_cases hlen : best.len = 0
            · rw [if_pos hlen]
              exact get?_tl_of_eq slots slots1 htl1 j sl hj
            · rw [if_neg hlen]
              have hacc : accOk slots1
                  (gsAt gs (findCursor gs cursor 0)).remainingMinutes
                  used maxPer best := by
                have h := scanGo_sound ep
                  (gsAt gs (findCursor gs cursor 0)).remainingMinutes
                  used maxPer (List.range slots.length) slots
                  { start := none, len := 0, score := none, bucket := none }
                  (fun b hb =>
                    Option.noConfusion (show (none : Option ℕ) = some b from hb))
                rw [hscan] at h
                exact h
              obtain ⟨hl1, hcontig, hlq, hlcap⟩ := hacc bs hbs
              have htlw : (writeBlockRationale slots1 bs best.len
                  (blockRule best.bucket)).map tl = slots1.map tl :=
                tl_writeBlockRationale slots1 bs best.len (blockRule best.bucket)
              have htl2 : (writeBlockRationale slots1 bs best.len
                  (blockRule best.bucket)).map tl = slots.map tl :=
                htlw.trans htl1
              have hcontig' : isContiguousFree
                  (writeBlockRationale slots1 bs best.len (blockRule best.bucket))
                  bs best.len = true := by
                rw [isContiguousFree_congr slots1 _ htlw]
                exact hcontig
              have hout : j < bs ∨ bs + best.len ≤ j := by
                by_contra hcon
                push_neg at hcon
                obtain ⟨x, hx, hxf⟩ := isContiguousFree_free _ bs best.len
                  hcontig' j hcon.1 hcon.2
                have hv := get?_tl_of_eq slots _ htl2 j sl hj
                rw [hx] at hv
                simp only [Option.map_some'] at hv
                have hty := (tl_fields sl x (by injection hv)).1
                refine hnf ?_
                rw [← hty]
                exact hxf
              have hv := get?_tl_of_eq slots _ htl2 j sl hj
              rcases hx : (writeBlockRationale slots1 bs best.len
                  (blockRule best.bucket)).get? j with _ | sl''
              · rw [hx] at hv
                simp at hv
              · rw [hx] at hv
                simp only [Option.map_some'] at hv
                have htleq : tl sl'' = tl sl := by injection hv
                have hget : (placeBlock
                    (writeBlockRationale slots1 bs best.len (blockRule best.bucket))
                    bs best.len (gsAt gs (findCursor gs cursor 0)).title
                    (gsAt gs (findCursor gs cursor 0)).priority).get? j =
                    some sl'' := by
                  rw [get?_placeBlock_out _ bs _ _ best.len j hout]
                  exact hx
                have hnf'' : sl''.type ≠ SlotType.free := by
                  rw [(tl_fields sl sl'' htleq).1]
                  exact hnf
                exact (ih _ _ _ _ j sl'' hget hnf'').trans (by rw [htleq])

/-! ### The day loop adds at most the daily cap in study slots -/

theorem studyCount_dayLoop (ep : WeeklyPlannerPolicy) (maxPer : ℤ) :
    ∀ (fuel : ℕ) (gs : List GoalState) (cursor : ℕ) (slots : List Slot)
      (used : ℕ),
    (studyCount (dayLoop ep maxPer fuel gs cursor slots used).2.2 : ℤ) ≤
      studyCount slots + max 0 (maxPer - used) := by
  intro fuel
  induction fuel with
  | zero =>
    intro gs cursor slots used
    show (studyCount slots : ℤ) ≤ studyCount slots + max 0 (maxPer - used)
    omega
  | succ n ih =>
    intro gs cursor slots used
    unfold dayLoop
    by_cases h1 : ¬ ((used : ℤ) < maxPer)
    · rw [if_pos h1]
      show (studyCount slots : ℤ) ≤ studyCount slots + max 0 (maxPer - used)
      omega
    · rw [if_neg h1]
      by_cases h2 : ¬ anyEligible gs = true
      · rw [if_pos h2]
        show (studyCount slots : ℤ) ≤ studyCount slots + max 0 (maxPer - used)
        omega
      · rw [if_neg h2]
        by_cases h3 : ineligible gs (findCursor gs cursor 0) = true
        · rw [if_pos h3]
          by_cases h4 : (gsAt gs (findCursor gs cursor 0)).status =
              some GoalStatus.postponed
          · rw [if_pos h4]
            show (studyCount (markPostponed slots) : ℤ) ≤
              studyCount slots + max 0 (maxPer - used)
            rw [studyCount_congr slots (markPostponed slots) (tl_markPostponed slots)]
            omega
          · rw [if_neg h4]
            show (studyCount slots : ℤ) ≤ studyCount slots + max 0 (maxPer - used)
            omega
        · rw [if_neg h3]
          dsimp only
          rcases hscan : scanGo ep
              (gsAt gs (findCursor gs cursor 0)).remainingMinutes
              used maxPer (List.range slots.length) slots
              { start := none, len := 0, score := none, bucket := none }
            with ⟨slots1, best⟩
          have htl1 : slots1.map tl = slots.map tl := by
            have h := tl_scanGo ep
              (gsAt gs (findCursor gs cursor 0)).remainingMinutes
              used maxPer (List.range slots.length) slots
              { start := none, len := 0, score := none, bucket := none }
            rw [hscan] at h
            exact h
          have hsc1 : studyCount slots1 = studyCount slots :=
            studyCount_congr slots slots1 htl1
          dsimp only
          rcases hbs : best.start with _ | bs
          · show (studyCount slots1 : ℤ) ≤ studyCount slots + max 0 (maxPer - used)
            omega
          · dsimp only
            by_cases hlen : best.len = 0
            · rw [if_pos hlen]
              show (studyCount slots1 : ℤ) ≤ studyCount slots + max 0 (maxPer - used)
              omega
            · rw [if_neg hlen]
              have hacc : accOk slots1
                  (gsAt gs (findCursor gs cursor 0)).remainingMinutes
                  used maxPer best := by
                have h := scanGo_sound ep
                  (gsAt gs (findCursor gs cursor 0)).remainingMinutes
                  used maxPer (List.range slots.length) slots
                  { start := none, len := 0, score := none, bucket := none }
                  (fun b hb =>
                    Option.noConfusion (show (none : Option ℕ) = some b from hb))
                rw [hscan] at h
                exact h
              obtain ⟨hl1, hcontig, hlq, hlcap⟩ := hacc bs hbs
              have htlw : (writeBlockRationale slots1 bs best.len
                  (blockRule best.bucket)).map tl = slots1.map tl :=
                tl_writeBlockRationale slots1 bs best.len (blockRule best.bucket)
              have hcontig' : isContiguousFree
                  (writeBlockRationale slots1 bs best.len (blockRule best.bucket))
                  bs best.len = true := by
                rw [isContiguousFree_congr slots1 _ htlw]
                exact hcontig
              have hpb := studyCount_placeBlock
                (writeBlockRationale slots1 bs best.len (blockRule best.bucket)) bs
                (gsAt gs (findCursor gs cursor 0)).title
                (gsAt gs (findCursor gs cursor 0)).priority best.len hcontig'
              have he1 : studyCount (writeBlockRationale slots1 bs best.len
                  (blockRule best.bucket)) = studyCount slots :=
                (studyCount_congr slots1 _ htlw).trans hsc1
              rw [he1] at hpb
              have hih := ih
                (updRem gs (findCursor gs cursor 0)
                  ((best.len : ℚ) * (SLOT_MINUTES : ℚ)))
                ((findCursor gs cursor 0 + 1) %
                  (updRem gs (findCursor gs cursor 0)
                    ((best.len : ℚ) * (SLOT_MINUTES : ℚ))).length)
                (placeBlock
                  (writeBlockRationale slots1 bs best.len (blockRule best.bucket))
                  bs best.len (gsAt gs (findCursor gs cursor 0)).title
                  (gsAt gs (findCursor gs cursor 0)).priority)
                (used + best.len)
              rw [hpb] at hih
              omega

/-! ### Per-goal accounting: study slots paid for by remaining minutes -/

theorem labelStudy_dayLoop (ep : WeeklyPlannerPolicy) (maxPer : ℤ) :
    ∀ (fuel : ℕ) (gs : List GoalState) (cursor : ℕ) (slots : List Slot)
      (used i : ℕ), i < gs.length → (gs.map GoalState.title).Nodup →
    (30 * (labelStudy (gsAt gs i).title
          (dayLoop ep maxPer fuel gs cursor slots used).2.2 : ℚ) +
        (gsAt (dayLoop ep maxPer fuel gs cursor slots used).1 i).remainingMinutes =
      30 * (labelStudy (gsAt gs i).title slots : ℚ) +
        (gsAt gs i).remainingMinutes) ∧
    (-30 < (gsAt gs i).remainingMinutes →
      -30 < (gsAt (dayLoop ep maxPer fuel gs cursor slots used).1 i).remainingMinutes) := by
  intro fuel
  induction fuel with
  | zero =>
    intro gs cursor slots used i hi hnd
    exact ⟨rfl, fun h => h⟩
  | succ n ih =>
    intro gs cursor slots used i hi hnd
    unfold dayLoop
    by_cases h1 : ¬ ((used : ℤ) < maxPer)
    · rw [if_pos h1]
      exact ⟨rfl, fun h => h⟩
    · rw [if_neg h1]
      by_cases h2 : ¬ anyEligible gs = true
      · rw [if_pos h2]
        exact ⟨rfl, fun h => h⟩
      · rw [if_neg h2]
        by_cases h3 : ineligible gs (findCursor gs cursor 0) = true
        · rw [if_pos h3]
          by_cases h4 : (gsAt gs (findCursor gs cursor 0)).status =
              some GoalStatus.postponed
          · rw [if_pos h4]
            refine ⟨?_, fun h => h⟩
            show 30 * (labelStudy (gsAt gs i).title (markPostponed slots) : ℚ) +
                (gsAt gs i).remainingMinutes =
              30 * (labelStudy (gsAt gs i).title slots : ℚ) +
                (gsAt gs i).remainingMinutes
            rw [labelStudy_congr slots (markPostponed slots)
              (tl_markPostponed slots)]
          · rw [if_neg h4]
            exact ⟨rfl, fun h => h⟩
        · rw [if_neg h3]
          dsimp only
          rcases hscan : scanGo ep
              (gsAt gs (findCursor gs cursor 0)).remainingMinutes
              used maxPer (List.range slots.length) slots
              { start := none, len := 0, score := none, bucket := none }
            with ⟨slots1, best⟩
          have htl1 : slots1.map tl = slots.map tl := by
            have h := tl_scanGo ep
              (gsAt gs (findCursor gs cursor 0)).remainingMinutes
              used maxPer (List.range slots.length) slots
              { start := none, len := 0, score := none, bucket := none }
            rw [hscan] at h
            exact h
          dsimp only
          rcases hbs : best.start with _ | bs
          · refine ⟨?_, fun h => h⟩
            show 30 * (labelStudy (gsAt gs i).title slots1 : ℚ) +
                (gsAt gs i).remainingMinutes =
              30 * (labelStudy (gsAt gs i).title slots : ℚ) +
                (gsAt gs i).remainingMinutes
            rw [labelStudy_congr slots slots1 htl1]
          · dsimp only
            by_cases hlen : best.len = 0
            · rw [if_pos hlen]
              refine ⟨?_, fun h => h⟩
              show 30 * (labelStudy (gsAt gs i).title slots1 : ℚ) +
                  (gsAt gs i).remainingMinutes =
                30 * (labelStudy (gsAt gs i).title slots : ℚ) +
                  (gsAt gs i).remainingMinutes
              rw [labelStudy_congr slots slots1 htl1]
            · rw [if_neg hlen]
              have hacc : accOk slots1
                  (gsAt gs (findCursor gs cursor 0)).remainingMinutes
                  used maxPer best := by
                have h := scanGo_sound ep
                  (gsAt gs (findCursor gs cursor 0)).remainingMinutes
                  used maxPer (List.range slots.length) slots
                  { start := none, len := 0, score := none, bucket := none }
                  (fun b hb =>
                    Option.noConfusion (show (none : Option ℕ) = some b from hb))
                rw [hscan] at h
                exact h
              obtain ⟨hl1, hcontig, hlq, hlcap⟩ := hacc bs hbs
              have hcl : findCursor gs cursor 0 < gs.length := by
                by_contra hge
                rw [ineligible_oob gs _ (not_lt.mp hge)] at h3
                exact h3 rfl
              have hrpos : 0 < (gsAt gs (findCursor gs cursor 0)).remainingMinutes := by
                by_contra hle
                exact h3 (decide_eq_true (Or.inl (not_lt.mp hle)))
              have htlw : (writeBlockRationale slots1 bs best.len
                  (blockRule best.bucket)).map tl = slots1.map tl :=
                tl_writeBlockRationale slots1 bs best.len (blockRule best.bucket)
              have hcontig' : isContiguousFree
                  (writeBlockRationale slots1 bs best.len (blockRule best.bucket))
                  bs best.len = true := by
                rw [isContiguousFree_congr slots1 _ htlw]
                exact hcontig
              have hS : ((SLOT_MINUTES : ℕ) : ℚ) = 30 := by
                norm_num [SLOT_MINUTES]
              rw [hS] at hlq ⊢
              have hnd' : ((updRem gs (findCursor gs cursor 0)
                  ((best.len : ℚ) * 30)).map GoalState.title).Nodup := by
                rw [map_title_updRem]
                exact hnd
              have hih := ih
                (updRem gs (findCursor gs cursor 0) ((best.len : ℚ) * 30))
                ((findCursor gs cursor 0 + 1) %
                  (updRem gs (findCursor gs cursor 0)
                    ((best.len : ℚ) * 30)).length)
                (placeBlock
                  (writeBlockRationale slots1 bs best.len (blockRule best.bucket))
                  bs best.len (gsAt gs (findCursor gs cursor 0)).title
                  (gsAt gs (findCursor gs cursor 0)).priority)
                (used + best.len) i
                (by rw [length_updRem]; exact hi) hnd'
              have hti : (gsAt (updRem gs (findCursor gs cursor 0)
                  ((best.len : ℚ) * 30)) i).title = (gsAt gs i).title :=
                (gsAt_updRem_title gs (findCursor gs cursor 0) _ i).1
              rw [hti] at hih
              obtain ⟨ihsum, ihbnd⟩ := hih
              by_cases hic : i = findCursor gs cursor 0
              · subst hic
                have hrem' : (gsAt (updRem gs (findCursor gs cursor 0)
                    ((best.len : ℚ) * 30))
                    (findCursor gs cursor 0)).remainingMinutes =
                    (gsAt gs (findCursor gs cursor 0)).remainingMinutes -
                      (best.len : ℚ) * 30 :=
                  gsAt_updRem_eq gs (findCursor gs cursor 0) _ hcl
                have E0 := labelStudy_placeBlock
                  (writeBlockRationale slots1 bs best.len (blockRule best.bucket)) bs
                  (gsAt gs (findCursor gs cursor 0)).title
                  (gsAt gs (findCursor gs cursor 0)).title
                  (gsAt gs (findCursor gs cursor 0)).priority best.len hcontig'
                rw [if_pos rfl] at E0
                have E1 : labelStudy (gsAt gs (findCursor gs cursor 0)).title
                    (placeBlock
                      (writeBlockRationale slots1 bs best.len (blockRule best.bucket))
                      bs best.len (gsAt gs (findCursor gs cursor 0)).title
                      (gsAt gs (findCursor gs cursor 0)).priority) =
                    labelStudy (gsAt gs (findCursor gs cursor 0)).title slots +
                      best.len := by
                  rw [E0, labelStudy_congr slots1 _ htlw,
                    labelStudy_congr slots slots1 htl1]
                rw [E1] at ihsum
                push_cast at ihsum
                rw [hrem'] at ihsum
                have hcpos : (0 : ℚ) <
                    (gsAt gs (findCursor gs cursor 0)).remainingMinutes / 30 :=
                  div_pos hrpos (by norm_num)
                have hc1 : 0 <
                    ⌈(gsAt gs (findCursor gs cursor 0)).remainingMinutes / 30⌉ :=
                  Int.ceil_pos.mpr hcpos
                have hlq' : (best.len : ℤ) ≤
                    ⌈(gsAt gs (findCursor gs cursor 0)).remainingMinutes / 30⌉ := by
                  omega
                have hceil := Int.ceil_lt_add_one
                  ((gsAt gs (findCursor gs cursor 0)).remainingMinutes / 30)
                have hlenq : ((best.len : ℕ) : ℚ) ≤
                    ((⌈(gsAt gs (findCursor gs cursor 0)).remainingMinutes / 30⌉ :
                      ℤ) : ℚ) := by
                  exact_mod_cast hlq'
                have hmid : -30 < (gsAt (updRem gs (findCursor gs cursor 0)
                    ((best.len : ℚ) * 30))
                    (findCursor gs cursor 0)).remainingMinutes := by
                  rw [hrem']
                  linarith
                refine ⟨?_, fun h => ihbnd hmid⟩
                linarith [ihsum]
              · have htne : (gsAt gs i).title ≠
                    (gsAt gs (findCursor gs cursor 0)).title :=
                  gsAt_title_ne gs hnd i (findCursor gs cursor 0) hi hcl hic
                have hgi : gsAt (updRem gs (findCursor gs cursor 0)
                    ((best.len : ℚ) * 30)) i = gsAt gs i :=
                  gsAt_updRem_ne gs (findCursor gs cursor 0) _ i hic
                have E0 := labelStudy_placeBlock
                  (writeBlockRationale slots1 bs best.len (blockRule best.bucket)) bs
                  (gsAt gs i).title (gsAt gs (findCursor gs cursor 0)).title
                  (gsAt gs (findCursor gs cursor 0)).priority best.len hcontig'
                rw [if_neg htne] at E0
                have E1 : labelStudy (gsAt gs i).title
                    (placeBlock
                      (writeBlockRationale slots1 bs best.len (blockRule best.bucket))
                      bs best.len (gsAt gs (findCursor gs cursor 0)).title
                      (gsAt gs (findCursor gs cursor 0)).priority) =
                    labelStudy (gsAt gs i).title slots := by
                  rw [E0, labelStudy_congr slots1 _ htlw,
                    labelStudy_congr slots slots1 htl1]
                  omega
                rw [E1, hgi] at ihsum
                rw [hgi] at ihbnd
                exact ⟨ihsum, ihbnd⟩

/-! ### The constraint phase never writes a study slot -/

theorem getSlot?_setSlot_ne (days : List DayPlan) (d0 s0 : ℕ) (f : Slot → Slot)
    (d j : ℕ) (h : d ≠ d0 ∨ j ≠ s0) :
    getSlot? (setSlot days d0 s0 f) d j = getSlot? days d j := by
  unfold getSlot? setSlot
  rcases h with h | h
  · rw [get?_modIdx_ne _ d0 d _ h]
  · by_cases hd : d = d0
    · subst hd
      rw [get?_modIdx_eq]
      rcases days.get? d with _ | day
      · rfl
      · show (modIdx f s0 day.slots).get? j = day.slots.get? j
        exact get?_modIdx_ne _ s0 j _ h
    · rw [get?_modIdx_ne _ d0 d _ hd]

theorem getSlot?_setSlot_eq (days : List DayPlan) (d0 s0 : ℕ) (f : Slot → Slot) :
    getSlot? (setSlot days d0 s0 f) d0 s0 = (getSlot? days d0 s0).map f := by
  unfold getSlot? setSlot
  rw [get?_modIdx_eq]
  rcases days.get? d0 with _ | day
  · rfl
  · show (modIdx f s0 day.slots).get? s0 = (day.slots.get? s0).map f
    exact get?_modIdx_eq f s0 day.slots

theorem NS_setSlot (days : List DayPlan) (d0 s0 : ℕ) (f : Slot → Slot)
    (hf : ∀ sl, (f sl).type = sl.type ∨ (f sl).type = SlotType.busy)
    (h : ∀ d j sl, getSlot? days d j = some sl → sl.type ≠ SlotType.study) :
    ∀ d j sl, getSlot? (setSlot days d0 s0 f) d j = some sl →
      sl.type ≠ SlotType.study := by
  intro d j sl hs
  by_cases hd : d = d0 ∧ j = s0
  · obtain ⟨hd1, hd2⟩ := hd
    subst hd1
    subst hd2
    rw [getSlot?_setSlot_eq] at hs
    rcases hg : getSlot? days d j with _ | sl0
    · rw [hg] at hs
      simp at hs
    · rw [hg] at hs
      simp only [Option.map_some'] at hs
      injection hs with hs
      subst hs
      rcases hf sl0 with hft | hft
      · rw [hft]
        exact h _ _ sl0 hg
      · rw [hft]
        exact fun hcon => SlotType.noConfusion hcon
  · rw [getSlot?_setSlot_ne days d0 s0 f d j (by tauto)] at hs
    exact h d j sl hs

theorem NS_scenarioB (title : String) (s : ℕ) (acc : List DayPlan × ℤ)
    (h : ∀ d j sl, getSlot? acc.1 d j = some sl → sl.type ≠ SlotType.study) :
    ∀ d j sl, getSlot? (constraintScenarioB title s acc).1 d j = some sl →
      sl.type ≠ SlotType.study := by
  unfold constraintScenarioB
  refine foldl_inv (fun a : List DayPlan × ℤ =>
    ∀ d j sl, getSlot? a.1 d j = some sl → sl.type ≠ SlotType.study)
    _ _ acc h ?_
  intro acc2 d2 hd2 ha
  by_cases h0 : acc2.2 ≤ 0
  · rw [if_pos h0]
    exact ha
  · rw [if_neg h0]
    rcases hsl : getSlot? acc2.1 d2 s with _ | sl
    · exact ha
    · dsimp only
      by_cases hfree : sl.type = SlotType.free
      · rw [if_pos hfree]
        exact NS_setSlot acc2.1 d2 s _ (fun t => Or.inr rfl) ha
      · rw [if_neg hfree]
        exact ha

theorem NS_applyConstraint (days : List DayPlan) (c : Constraint)
    (h : ∀ d j sl, getSlot? days d j = some sl → sl.type ≠ SlotType.study) :
    ∀ d j sl, getSlot? (applyConstraint days c) d j = some sl →
      sl.type ≠ SlotType.study := by
  unfold applyConstraint
  refine foldl_inv (fun a : List DayPlan × ℤ =>
    ∀ d j sl, getSlot? a.1 d j = some sl → sl.type ≠ SlotType.study)
    _ _ _ h ?_
  intro acc s2 hs2 ha
  by_cases h0 : acc.2 ≤ 0
  · rw [if_pos h0]
    exact ha
  · rw [if_neg h0]
    by_cases htdi : indexOfDay c.day ≠ -1
    · rw [if_pos htdi]
      rcases hsl : getSlot? acc.1 (indexOfDay c.day).toNat s2 with _ | sl
      · exact ha
      · dsimp only
        by_cases hfree : sl.type = SlotType.free
        · rw [if_pos hfree]
          exact NS_setSlot acc.1 _ s2 _ (fun t => Or.inr rfl) ha
        · rw [if_neg hfree]
          exact NS_setSlot acc.1 _ s2 _ (fun t => Or.inl rfl) ha
    · rw [if_neg htdi]
      exact NS_scenarioB c.title s2 acc ha

theorem NS_placeConstraints (days : List DayPlan) (cs : List Constraint)
    (h : ∀ d j sl, getSlot? days d j = some sl → sl.type ≠ SlotType.study) :
    ∀ d j sl, getSlot? (placeConstraints days cs) d j = some sl →
      sl.type ≠ SlotType.study := by
  unfold placeConstraints
  refine foldl_inv (fun a : List DayPlan =>
    ∀ d j sl, getSlot? a d j = some sl → sl.type ≠ SlotType.study)
    _ cs days h ?_
  intro a c hc ha
  exact NS_applyConstraint a c ha

theorem getSlot?_initDays (d j : ℕ) (sl : Slot)
    (h : getSlot? initDays d j = some sl) : sl.type = SlotType.free := by
  unfold getSlot? initDays at h
  rw [List.get?_map] at h
  rcases hd : WEEK_DAYS.get? d with _ | name
  · rw [hd] at h
    simp at h
  · rw [hd] at h
    simp only [Option.map_some'] at h
    have h2 : ((List.range slotsPerDay).map fun i =>
        ({ startMinutes := ((START_HOUR * 60 + i * SLOT_MINUTES : ℕ) : ℚ)
           type := SlotType.free
           rationale := some SchedulerRule.SLOT_FREE_AVAILABLE } : Slot)).get? j =
        some sl := h
    rw [List.get?_map] at h2
    rcases hr : (List.range slotsPerDay).get? j with _ | i
    · rw [hr] at h2
      simp at h2
    · rw [hr] at h2
      simp only [Option.map_some'] at h2
      injection h2 with h2
      subst h2
      rfl

theorem labelStudy_eq_zero (slots : List Slot)
    (h : ∀ sl ∈ slots, sl.type ≠ SlotType.study) (t : String) :
    labelStudy t slots = 0 := by
  rw [labelStudy_eq_countP]
  refine List.countP_eq_zero.mpr ?_
  intro sl hsl
  simp
  intro hty
  exact absurd hty (h sl hsl)

theorem studyCount_eq_zero (slots : List Slot)
    (h : ∀ sl ∈ slots, sl.type ≠ SlotType.study) :
    studyCount slots = 0 := by
  rw [studyCount_eq_countP]
  refine List.countP_eq_zero.mpr ?_
  intro sl hsl
  simp
  exact h sl hsl

theorem noStudy_day (days : List DayPlan)
    (h : ∀ d j sl, getSlot? days d j = some sl → sl.type ≠ SlotType.study)
    (day : DayPlan) (hd : day ∈ days) :
    ∀ sl ∈ day.slots, sl.type ≠ SlotType.study := by
  intro sl hsl
  obtain ⟨d, hd'⟩ := List.mem_iff_get?.mp hd
  obtain ⟨j, hj⟩ := List.mem_iff_get?.mp hsl
  refine h d j sl ?_
  unfold getSlot?
  rw [hd']
  exact hj

/-! ### The exam-window rationale pass only touches rationales -/

theorem tl_markExamRationale (days : List DayPlan) (d j : ℕ) :
    (getSlot? (markExamRationale days) d j).map tl =
      (getSlot? days d j).map tl := by
  unfold markExamRationale getSlot?
  rw [List.get?_map]
  rcases hd : days.get? d with _ | day
  · rfl
  · simp only [Option.map_some']
    show (((day.slots.map fun sl =>
        if sl.type = SlotType.free ∧ sl.rationale = none then
          { sl with rationale := some SchedulerRule.EXAM_WINDOW_ACTIVE }
        else sl).get? j).map tl) = ((day.slots.get? j).map tl)
    rw [List.get?_map]
    rcases hs : day.slots.get? j with _ | sl
    · rfl
    · simp only [Option.map_some']
      by_cases h : sl.type = SlotType.free ∧ sl.rationale = none
      · simp [h, tl]
      · simp [h]

theorem mem_markExamRationale (days : List DayPlan) (day : DayPlan)
    (hd : day ∈ markExamRationale days) :
    ∃ day0 ∈ days, day.slots.map tl = day0.slots.map tl := by
  unfold markExamRationale at hd
  obtain ⟨day0, hday0, heq⟩ := List.mem_map.mp hd
  refine ⟨day0, hday0, ?_⟩
  rw [← heq]
  dsimp only
  rw [List.map_map]
  refine List.map_congr_left ?_
  intro sl _
  by_cases h : sl.type = SlotType.free ∧ sl.rationale = none
  · simp [h, tl]
  · simp [h]

/-! ### Day-by-day assembly -/

theorem mem_placeGoalsGo (ep : WeeklyPlannerPolicy) (maxPer : ℤ) :
    ∀ (days : List DayPlan) (gs : List GoalState) (cursor : ℕ) (day : DayPlan),
    day ∈ placeGoalsGo ep maxPer days gs cursor →
    ∃ day0 ∈ days, ∃ (gs0 : List GoalState) (c0 : ℕ),
      day.slots = (dayLoop ep maxPer (dayFuel maxPer) gs0 c0 day0.slots 0).2.2 := by
  intro days
  induction days with
  | nil =>
    intro gs cursor day hd
    simp [placeGoalsGo] at hd
  | cons d0 rest ih =>
    intro gs cursor day hd
    unfold placeGoalsGo at hd
    rcases List.mem_cons.mp hd with h | h
    · exact ⟨d0, List.mem_cons_self d0 rest, gs, cursor, by rw [h]⟩
    · obtain ⟨day0, hday0, gs0, c0, heq⟩ := ih _ _ day h
      exact ⟨day0, List.mem_cons_of_mem d0 hday0, gs0, c0, heq⟩

theorem tl_placeGoalsGo (ep : WeeklyPlannerPolicy) (maxPer : ℤ) :
    ∀ (days : List DayPlan) (gs : List GoalState) (cursor : ℕ) (d j : ℕ)
      (sl : Slot), getSlot? days d j = some sl → sl.type ≠ SlotType.free →
    ((getSlot? (placeGoalsGo ep maxPer days gs cursor) d j).map tl) =
      some (tl sl) := by
  intro days
  induction days with
  | nil =>
    intro gs cursor d j sl h hnf
    exact Option.noConfusion h
  | cons day rest ih =>
    intro gs cursor d j sl h hnf
    unfold placeGoalsGo
    cases d with
    | zero =>
      exact tl_dayLoop ep maxPer (dayFuel maxPer) gs cursor day.slots 0 j sl h hnf
    | succ d' =>
      exact ih (dayLoop ep maxPer (dayFuel maxPer) gs cursor day.slots 0).1
        (dayLoop ep maxPer (dayFuel maxPer) gs cursor day.slots 0).2.1 d' j sl h hnf

theorem labelStudy_placeGoalsGo (ep : WeeklyPlannerPolicy) (maxPer : ℤ) :
    ∀ (days : List DayPlan) (gs : List GoalState) (cursor : ℕ) (i : ℕ),
    i < gs.length → (gs.map GoalState.title).Nodup →
    -30 < (gsAt gs i).remainingMinutes →
    30 * (weekLabel (gsAt gs i).title (placeGoalsGo ep maxPer days gs cursor) : ℚ) <
      30 * ((days.map fun day => labelStudy (gsAt gs i).title day.slots).sum : ℚ) +
        (gsAt gs i).remainingMinutes + 30 := by
  intro days
  induction days with
  | nil =>
    intro gs cursor i hi hnd hrem
    unfold placeGoalsGo weekLabel
    simp
    linarith
  | cons day rest ih =>
    intro gs cursor i hi hnd hrem
    obtain ⟨lsum, lbnd⟩ := labelStudy_dayLoop ep maxPer (dayFuel maxPer) gs cursor
      day.slots 0 i hi hnd
    have hlen' : i <
        (dayLoop ep maxPer (dayFuel maxPer) gs cursor day.slots 0).1.length := by
      rw [length_gs_dayLoop]
      exact hi
    have hnd' : ((dayLoop ep maxPer (dayFuel maxPer) gs cursor day.slots 0).1.map
        GoalState.title).Nodup := by
      rw [map_title_dayLoop]
      exact hnd
    have hti : (gsAt (dayLoop ep maxPer (dayFuel maxPer) gs cursor
        day.slots 0).1 i).title = (gsAt gs i).title :=
      (gsAt_dayLoop_pair ep maxPer (dayFuel maxPer) gs cursor day.slots 0 i hi).1
    have hrem' : -30 < (gsAt (dayLoop ep maxPer (dayFuel maxPer) gs cursor
        day.slots 0).1 i).remainingMinutes := lbnd hrem
    have hih := ih (dayLoop ep maxPer (dayFuel maxPer) gs cursor day.slots 0).1
      (dayLoop ep maxPer (dayFuel maxPer) gs cursor day.slots 0).2.1 i
      hlen' hnd' hrem'
    rw [hti] at hih
    unfold placeGoalsGo weekLabel
    dsimp only
    rw [List.map_cons, List.sum_cons, List.map_cons, List.sum_cons]
    unfold weekLabel at hih
    push_cast
    push_cast at hih lsum
    linarith

/-! ### Helpers shared by the buildWeeklyPlan claims -/

theorem map_title_initGoalStates (goals : List Goal) :
    (initGoalStates goals).map GoalState.title = goals.map Goal.title := by
  unfold initGoalStates
  rw [List.map_map]
  rfl

theorem length_initGoalStates (goals : List Goal) :
    (initGoalStates goals).length = goals.length := by
  unfold initGoalStates
  rw [List.length_map]

theorem gsAt_initGoalStates (goals : List Goal) (i : ℕ) (g : Goal)
    (h : goals.get? i = some g) :
    gsAt (initGoalStates goals) i =
      { id := g.id
        title := g.title
        priority := g.priority
        status := g.status
        remainingMinutes := jsOrQ g.targetHours 0 * 60
        deadline := g.deadline } := by
  unfold gsAt initGoalStates
  rw [List.get?_map, h]
  rfl

theorem NS_markExamRationale (days : List DayPlan)
    (h : ∀ d j sl, getSlot? days d j = some sl → sl.type ≠ SlotType.study) :
    ∀ d j sl, getSlot? (markExamRationale days) d j = some sl →
      sl.type ≠ SlotType.study := by
  intro d j sl hs
  have hq := tl_markExamRationale days d j
  rw [hs] at hq
  rcases hx : getSlot? days d j with _ | sl0
  · rw [hx] at hq
    simp at hq
  · rw [hx] at hq
    simp only [Option.map_some'] at hq
    have hty := (tl_fields sl0 sl (by injection hq)).1
    rw [hty]
    exact h d j sl0 hx

theorem NS_initDays :
    ∀ d j sl, getSlot? initDays d j = some sl → sl.type ≠ SlotType.study := by
  intro d j sl h
  rw [getSlot?_initDays d j sl h]
  exact fun hc => SlotType.noConfusion hc

theorem cap_conclusion (cap : ℚ) (hcap : 0 ≤ cap) (n : ℕ)
    (hle : (n : ℤ) ≤ max 0 ⌊jsOrQ cap 0 / (SLOT_MINUTES : ℚ)⌋) :
    30 * (n : ℚ) ≤ cap := by
  rw [jsOrQ_zero] at hle
  have hS : ((SLOT_MINUTES : ℕ) : ℚ) = 30 := by norm_num [SLOT_MINUTES]
  rw [hS] at hle
  have hfl : ((⌊cap / (30 : ℚ)⌋ : ℤ) : ℚ) ≤ cap / 30 := Int.floor_le _
  have h0 : 0 ≤ ⌊cap / (30 : ℚ)⌋ :=
    Int.floor_nonneg.mpr (div_nonneg hcap (by norm_num))
  have hle' : (n : ℤ) ≤ ⌊cap / (30 : ℚ)⌋ := by omega
  have hq : ((n : ℕ) : ℚ) ≤ ((⌊cap / (30 : ℚ)⌋ : ℤ) : ℚ) := by
    exact_mod_cast hle'
  linarith

theorem studyCount_placeGoals_le (ep : WeeklyPlannerPolicy) (maxPer : ℤ)
    (days : List DayPlan) (gs : List GoalState)
    (hNS : ∀ d j sl, getSlot? days d j = some sl → sl.type ≠ SlotType.study)
    (day : DayPlan) (hday : day ∈ placeGoals ep maxPer days gs) :
    (studyCount day.slots : ℤ) ≤ max 0 maxPer := by
  obtain ⟨day0, hday0, gs0, c0, hslots⟩ :=
    mem_placeGoalsGo ep maxPer days gs 0 day hday
  have hz : studyCount day0.slots = 0 :=
    studyCount_eq_zero day0.slots (noStudy_day days hNS day0 hday0)
  have hb := studyCount_dayLoop ep maxPer (dayFuel maxPer) gs0 c0 day0.slots 0
  rw [hslots]
  omega

theorem weekLabel_placeGoals_lt (ep : WeeklyPlannerPolicy) (maxPer : ℤ)
    (days : List DayPlan) (gs : List GoalState) (i : ℕ)
    (hi : i < gs.length) (hnd : (gs.map GoalState.title).Nodup)
    (hrem : -30 < (gsAt gs i).remainingMinutes)
    (hlab : ∀ day ∈ days, labelStudy (gsAt gs i).title day.slots = 0) :
    30 * (weekLabel (gsAt gs i).title (placeGoals ep maxPer days gs) : ℚ) <
      (gsAt gs i).remainingMinutes + 30 := by
  have h := labelStudy_placeGoalsGo ep maxPer days gs 0 i hi hnd hrem
  have hz : (days.map fun day => labelStudy (gsAt gs i).title day.slots).sum = 0 := by
    refine List.sum_eq_zero ?_
    intro x hx
    obtain ⟨day, hday, hxe⟩ := List.mem_map.mp hx
    rw [← hxe]
    exact hlab day hday
  rw [hz] at h
  unfold placeGoals
  push_cast at h
  linarith

theorem tl_markExam_getSlot? (days : List DayPlan) (d s : ℕ) (sl : Slot)
    (h : getSlot? days d s = some sl) :
    ∃ sl1, getSlot? (markExamRationale days) d s = some sl1 ∧ tl sl1 = tl sl := by
  have hq := tl_markExamRationale days d s
  rw [h] at hq
  rcases hx : getSlot? (markExamRationale days) d s with _ | sl1
  · rw [hx] at hq
    simp at hq
  · rw [hx] at hq
    simp only [Option.map_some'] at hq
    exact ⟨sl1, rfl, by injection hq⟩

theorem tl_placeGoals_getSlot? (ep : WeeklyPlannerPolicy) (maxPer : ℤ)
    (days : List DayPlan) (gs : List GoalState) (d s : ℕ) (sl : Slot)
    (h : getSlot? days d s = some sl) (hnf : sl.type ≠ SlotType.free) :
    ∃ sl', getSlot? (placeGoals ep maxPer days gs) d s = some sl' ∧
      sl'.type = sl.type ∧ sl'.label = sl.label := by
  have hq := tl_placeGoalsGo ep maxPer days gs 0 d s sl h hnf
  rcases hx : getSlot? (placeGoalsGo ep maxPer days gs 0) d s with _ | sl'
  · rw [hx] at hq
    simp at hq
  · rw [hx] at hq
    simp only [Option.map_some'] at hq
    have hf := tl_fields sl sl' (by injection hq)
    exact ⟨sl', hx, hf.1, hf.2⟩

/-- C7: a slot the constraint phase marked busy is never turned into a
study slot by goal placement — in the returned plan the slot is still
busy and keeps its constraint label, for every goals list, policy and
time. -/
theorem C7_constraint_slots_survive (goals : List Goal) (cs : List Constraint)
    (policy : WeeklyPlannerPolicy) (now : ℚ) (d s : ℕ) (sl : Slot)
    (h : getSlot? (placeConstraints initDays cs) d s = some sl)
    (hb : sl.type = SlotType.busy) :
    ∃ sl', getSlot? (buildWeeklyPlan goals cs policy now) d s = some sl' ∧
      sl'.type = SlotType.busy ∧ sl'.label = sl.label := by
  have hnf : sl.type ≠ SlotType.free := by
    rw [hb]
    exact fun hc => SlotType.noConfusion hc
  unfold buildWeeklyPlan
  by_cases hg : (initGoalStates goals).length = 0
  · rw [if_pos hg]
    exact ⟨sl, h, hb, rfl⟩
  · rw [if_neg hg]
    dsimp only
    by_cases hsoon : examSoon (initGoalStates goals) policy now = true
    · rw [if_pos hsoon]
      obtain ⟨sl1, hx, htl1⟩ :=
        tl_markExam_getSlot? (placeConstraints initDays cs) d s sl h
      have hf := tl_fields sl sl1 htl1
      have hnf1 : sl1.type ≠ SlotType.free := by
        rw [hf.1]
        exact hnf
      obtain ⟨sl', hx', ht', hl'⟩ := tl_placeGoals_getSlot? _ _ _ _ d s sl1 hx hnf1
      refine ⟨sl', hx', ?_, ?_⟩
      · rw [ht', hf.1]
        exact hb
      · rw [hl', hf.2]
    · rw [if_neg hsoon]
      obtain ⟨sl', hx', ht', hl'⟩ := tl_placeGoals_getSlot? _ _ _ _ d s sl h hnf
      refine ⟨sl', hx', ?_, ?_⟩
      · rw [ht']
        exact hb
      · rw [hl']

/-- C6 (amended): when the configured daily cap is non-negative, every day
of every returned plan carries at most `policy.maxStudyMinutesPerDay`
study minutes (30 minutes per study slot). -/
theorem C6_daily_study_cap (goals : List Goal) (cs : List Constraint)
    (policy : WeeklyPlannerPolicy) (now : ℚ)
    (hcap : 0 ≤ policy.maxStudyMinutesPerDay) :
    ∀ day ∈ buildWeeklyPlan goals cs policy now,
      30 * (studyCount day.slots : ℚ) ≤ policy.maxStudyMinutesPerDay := by
  intro day hday
  have hNS0 : ∀ d j sl, getSlot? (placeConstraints initDays cs) d j = some sl →
      sl.type ≠ SlotType.study :=
    NS_placeConstraints initDays cs NS_initDays
  unfold buildWeeklyPlan at hday
  by_cases hg : (initGoalStates goals).length = 0
  · rw [if_pos hg] at hday
    rw [studyCount_eq_zero day.slots (noStudy_day _ hNS0 day hday)]
    simpa using hcap
  · rw [if_neg hg] at hday
    dsimp only at hday
    by_cases hsoon : examSoon (initGoalStates goals) policy now = true
    · rw [if_pos hsoon] at hday
      have hle := studyCount_placeGoals_le _ _ _ _
        (NS_markExamRationale _ hNS0) day hday
      refine cap_conclusion policy.maxStudyMinutesPerDay hcap
        (studyCount day.slots) ?_
      rw [← maxStudy_effectivePolicy policy
        (examSoon (initGoalStates goals) policy now)]
      exact hle
    · rw [if_neg hsoon] at hday
      have hle := studyCount_placeGoals_le _ _ _ _ hNS0 day hday
      refine cap_conclusion policy.maxStudyMinutesPerDay hcap
        (studyCount day.slots) ?_
      rw [← maxStudy_effectivePolicy policy
        (examSoon (initGoalStates goals) policy now)]
      exact hle

/-- C5 (amended): with pairwise-distinct goal titles, a goal with a
non-negative target never receives more than its target rounded up to
whole 30-minute slots — `30 * ⌈targetHours * 2⌉` minutes — though it can
exceed `targetHours * 60` itself when the target is not a multiple of the
slot size. -/
theorem C5_goal_minutes_bound (goals : List Goal) (cs : List Constraint)
    (policy : WeeklyPlannerPolicy) (now : ℚ)
    (hnd : (goals.map Goal.title).Nodup) (g : Goal) (hg : g ∈ goals)
    (ht : 0 ≤ g.targetHours) :
    30 * (weekLabel g.title (buildWeeklyPlan goals cs policy now) : ℚ) ≤
      30 * ((⌈2 * g.targetHours⌉ : ℤ) : ℚ) := by
  obtain ⟨i, hgi⟩ := List.mem_iff_get?.mp hg
  obtain ⟨hi, _⟩ := List.get?_eq_some.mp hgi
  have hi' : i < (initGoalStates goals).length := by
    rw [length_initGoalStates]
    exact hi
  have hnd' : ((initGoalStates goals).map GoalState.title).Nodup := by
    rw [map_title_initGoalStates]
    exact hnd
  have htitle : (gsAt (initGoalStates goals) i).title = g.title := by
    rw [gsAt_initGoalStates goals i g hgi]
  have hremi : (gsAt (initGoalStates goals) i).remainingMinutes =
      g.targetHours * 60 := by
    rw [gsAt_initGoalStates goals i g hgi]
    show jsOrQ g.targetHours 0 * 60 = g.targetHours * 60
    rw [jsOrQ_zero]
  have hrem : -30 < (gsAt (initGoalStates goals) i).remainingMinutes := by
    rw [hremi]
    linarith
  have hNS0 : ∀ d j sl, getSlot? (placeConstraints initDays cs) d j = some sl →
      sl.type ≠ SlotType.study :=
    NS_placeConstraints initDays cs NS_initDays
  have hlab0 : ∀ day ∈ placeConstraints initDays cs,
      labelStudy (gsAt (initGoalStates goals) i).title day.slots = 0 := by
    intro day hday
    exact labelStudy_eq_zero day.slots (noStudy_day _ hNS0 day hday) _
  unfold buildWeeklyPlan
  have hg0 : ¬ (initGoalStates goals).length = 0 := by
    rw [length_initGoalStates]
    intro hzero
    rw [List.length_eq_zero] at hzero
    rw [hzero] at hg
    simp at hg
  rw [if_neg hg0]
  dsimp only
  have hfinish : ∀ (W : ℕ), 30 * (W : ℚ) <
      (gsAt (initGoalStates goals) i).remainingMinutes + 30 →
      30 * (W : ℚ) ≤ 30 * ((⌈2 * g.targetHours⌉ : ℤ) : ℚ) := by
    intro W hW
    rw [hremi] at hW
    have hWZ : (W : ℤ) ≤ ⌈2 * g.targetHours⌉ := by
      by_contra hcon
      push_neg at hcon
      have hc1 : ⌈2 * g.targetHours⌉ + 1 ≤ (W : ℤ) := hcon
      have hc2 : ((⌈2 * g.targetHours⌉ : ℤ) : ℚ) + 1 ≤ (W : ℚ) := by
        exact_mod_cast hc1
      have hc3 : (2 : ℚ) * g.targetHours ≤ ((⌈2 * g.targetHours⌉ : ℤ) : ℚ) :=
        Int.le_ceil _
      linarith
    have : ((W : ℕ) : ℚ) ≤ ((⌈2 * g.targetHours⌉ : ℤ) : ℚ) := by
      exact_mod_cast hWZ
    linarith
  by_cases hsoon : examSoon (initGoalStates goals) policy now = true
  · rw [if_pos hsoon]
    have hlab1 : ∀ day ∈ markExamRationale (placeConstraints initDays cs),
        labelStudy (gsAt (initGoalStates goals) i).title day.slots = 0 := by
      intro day hday
      obtain ⟨day0, hday0, htl⟩ :=
        mem_markExamRationale (placeConstraints initDays cs) day hday
      rw [labelStudy_congr day0.slots day.slots htl]
      exact hlab0 day0 hday0
    have hweek := weekLabel_placeGoals_lt
      (effectivePolicy policy (examSoon (initGoalStates goals) policy now))
      ⌊jsOrQ (effectivePolicy policy
          (examSoon (initGoalStates goals) policy now)).maxStudyMinutesPerDay 0 /
        (SLOT_MINUTES : ℚ)⌋
      (markExamRationale (placeConstraints initDays cs))
      (initGoalStates goals) i hi' hnd' hrem hlab1
    rw [htitle] at hweek
    exact hfinish _ hweek
  · rw [if_neg hsoon]
    have hweek := weekLabel_placeGoals_lt
      (effectivePolicy policy (examSoon (initGoalStates goals) policy now))
      ⌊jsOrQ (effectivePolicy policy
          (examSoon (initGoalStates goals) policy now)).maxStudyMinutesPerDay 0 /
        (SLOT_MINUTES : ℚ)⌋
      (placeConstraints initDays cs)
      (initGoalStates goals) i hi' hnd' hrem hlab0
    rw [htitle] at hweek
    exact hfinish _ hweek

set_option maxRecDepth 8000 in
/-- C7 witness: the Tuesday "Gym" constraint claims the 21:30 slot; after
the full build with a ten-hour goal the slot is still busy and keeps the
"Gym" label. -/
theorem C7_witness :
    ∃ sl', getSlot? (buildWeeklyPlan [c7goal] [c7cons]
        DEFAULT_WEEKLY_PLANNER_POLICY 0) 1 25 = some sl' ∧
      sl'.type = SlotType.busy ∧ sl'.label = c7slot.label :=
  C7_constraint_slots_survive [c7goal] [c7cons] DEFAULT_WEEKLY_PLANNER_POLICY 0
    1 25 c7slot (of_decide_eq_true (by with_unfolding_all rfl)) rfl

set_option maxRecDepth 8000 in
/-- C6 counterexample: with a negative configured cap (-30 minutes) the
scheduler places no study blocks, and a day with 0 study minutes already
exceeds the cap, so the unconditional claim fails. -/
theorem C6_counterexample :
    ∃ day ∈ buildWeeklyPlan [c6goal] [] c6policy 0,
      ¬ 30 * (studyCount day.slots : ℚ) ≤ c6policy.maxStudyMinutesPerDay :=
  ⟨c6day0, of_decide_eq_true (by with_unfolding_all rfl),
    of_decide_eq_true (by with_unfolding_all rfl)⟩

set_option maxRecDepth 8000 in
/-- C6 witness: under the default 360-minute cap the first day of a
concrete plan respects the bound. -/
theorem C6_witness :
    30 * (studyCount c6wday.slots : ℚ) ≤
      DEFAULT_WEEKLY_PLANNER_POLICY.maxStudyMinutesPerDay :=
  C6_daily_study_cap [c6wgoal] [] DEFAULT_WEEKLY_PLANNER_POLICY 0
    (of_decide_eq_true (by with_unfolding_all rfl)) c6wday
    (of_decide_eq_true (by with_unfolding_all rfl))

set_option maxRecDepth 8000 in
/-- C5 counterexample: a single 45-minute goal (targetHours 3/4) fits the
week's free capacity with room to spare, yet the plan assigns it 60 study
minutes — more than its stated target — because the placed block is
rounded up to whole 30-minute slots. -/
theorem C5_counterexample :
    (([c5goalA].map fun g => jsOrQ g.targetHours 0 * 60).sum ≤
        30 * (freeCount (placeConstraints initDays []) : ℚ)) ∧
      60 * c5goalA.targetHours <
        30 * (weekLabel c5goalA.title
          (buildWeeklyPlan [c5goalA] [] DEFAULT_WEEKLY_PLANNER_POLICY 0) : ℚ) :=
  ⟨of_decide_eq_true (by with_unfolding_all rfl),
   of_decide_eq_true (by with_unfolding_all rfl)⟩

set_option maxRecDepth 8000 in
/-- C5 witness: the amended bound at the same input — the 60 assigned
minutes equal 30 * ⌈2 * (3/4)⌉ exactly. -/
theorem C5_witness :
    30 * (weekLabel c5goalA.title
        (buildWeeklyPlan [c5goalA] [] DEFAULT_WEEKLY_PLANNER_POLICY 0) : ℚ) ≤
      30 * ((⌈2 * c5goalA.targetHours⌉ : ℤ) : ℚ) :=
  C5_goal_minutes_bound [c5goalA] [] DEFAULT_WEEKLY_PLANNER_POLICY 0
    (by simp) c5goalA (List.mem_singleton.mpr rfl)
    (of_decide_eq_true (by with_unfolding_all rfl))

end SELF
